import Mathlib

/-
Verification of mlprodict (ONNX runtime helpers) against its
natural-language specification.

The definitions below are a shallow embedding of the Python sources:

* `src/mlprodict/onnx_tools/onnx2py_helper.py` (dtype conversions),
* `src/mlprodict/onnxrt/ops_cpu/op_random.py` (RandomUniform / RandomNormal),
* `src/mlprodict/onnxrt/ops_cpu/op_cum_sum.py` (CumSum),
* `src/mlprodict/onnxrt/onnx_shape_inference.py` (OnnxShapeInference),
* `src/mlprodict/onnx_conv/sklconv/knn.py` (nearest-neighbour converter),
* `src/mlprodict/onnx_tools/exports/skl2onnx_helper.py` (add_onnx_graph).

Python `raise` is modelled with `Except String`; numpy floating point
values are modelled as exact rationals; the global numpy random state is
modelled as an explicit stream of draws together with a position.
-/

namespace Mlprodict

/-! ## Numpy dtypes and ONNX TensorProto element-type codes

The enumeration lists the numpy dtypes that the conversion helpers in
`onnx2py_helper.py` compare against, plus the complex dtypes which the
fixed dtype set of the data model contains but the helpers do not handle.
-/

inductive NpDtype where
  | float16 | float32 | float64
  | int8 | int16 | int32 | int64
  | uint8 | uint16 | uint32 | uint64
  | bool_ | str_
  | complex64 | complex128
  deriving DecidableEq, Repr

namespace TensorProto

/-- onnx.TensorProto element type codes (onnx protobuf enumeration). -/
def FLOAT : Nat := 1

def UINT8 : Nat := 2

def INT8 : Nat := 3

def UINT16 : Nat := 4

def INT16 : Nat := 5

def INT32 : Nat := 6

def INT64 : Nat := 7

def STRING : Nat := 8

def BOOL : Nat := 9

def FLOAT16 : Nat := 10

def DOUBLE : Nat := 11

def UINT32 : Nat := 12

def UINT64 : Nat := 13

def COMPLEX64 : Nat := 14

def COMPLEX128 : Nat := 15

def BFLOAT16 : Nat := 16

end TensorProto

open TensorProto

/-- `guess_proto_dtype` from `onnx2py_helper.py` (lines 625-659): the
if-chain mapping a numpy dtype to an ONNX proto code; the final
`raise RuntimeError` is the `.error` branch. -/
def guess_proto_dtype (dtype : NpDtype) : Except String Nat :=
  if dtype = .float32 then .ok FLOAT
  else if dtype = .float64 then .ok DOUBLE
  else if dtype = .int64 then .ok INT64
  else if dtype = .int32 then .ok INT32
  else if dtype = .int16 then .ok INT16
  else if dtype = .int8 then .ok INT8
  else if dtype = .uint64 then .ok UINT64
  else if dtype = .uint32 then .ok UINT32
  else if dtype = .uint16 then .ok UINT16
  else if dtype = .uint8 then .ok UINT8
  else if dtype = .float16 then .ok FLOAT16
  else if dtype = .bool_ then .ok BOOL
  else if dtype = .str_ then .ok STRING
  else .error "Unable to guess type for dtype."

/-- `guess_dtype` from `onnx2py_helper.py` (lines 691-726): the if-chain
mapping an ONNX proto code back to a numpy dtype; the final
`raise ValueError` is the `.error` branch. -/
def guess_dtype (proto_type : Nat) : Except String NpDtype :=
  if proto_type = FLOAT then .ok .float32
  else if proto_type = BOOL then .ok .bool_
  else if proto_type = DOUBLE then .ok .float64
  else if proto_type = STRING then .ok .str_
  else if proto_type = INT64 then .ok .int64
  else if proto_type = INT32 then .ok .int32
  else if proto_type = INT8 then .ok .int8
  else if proto_type = INT16 then .ok .int16
  else if proto_type = UINT64 then .ok .uint64
  else if proto_type = UINT32 then .ok .uint32
  else if proto_type = UINT8 then .ok .uint8
  else if proto_type = UINT16 then .ok .uint16
  else if proto_type = FLOAT16 then .ok .float16
  else .error "Unable to convert proto_type to numpy type."

/-- The thirteen numpy dtypes named by the round-trip claim. -/
def supportedNpDtypes : List NpDtype :=
  [.float16, .float32, .float64, .int8, .int16, .int32, .int64,
   .uint8, .uint16, .uint32, .uint64, .bool_, .str_]

/-- The proto codes accepted by `guess_dtype` (codes 1 through 13). -/
def supportedProtoCodes : List Nat :=
  [FLOAT, UINT8, INT8, UINT16, INT16, INT32, INT64,
   STRING, BOOL, FLOAT16, DOUBLE, UINT32, UINT64]

end Mlprodict

namespace Mlprodict

open TensorProto

/-- C10: for every numpy dtype in the supported set,
`guess_dtype (guess_proto_dtype d) = d`; `guess_proto_dtype` raises on a
dtype outside that set, and `guess_dtype` raises on any proto code
outside its supported codes, instead of returning a default. -/
theorem C10_dtype_roundtrip :
    (∀ d ∈ supportedNpDtypes,
      (guess_proto_dtype d).bind guess_dtype = .ok d)
    ∧ (∀ d : NpDtype, d ∉ supportedNpDtypes →
        (guess_proto_dtype d).isOk = false)
    ∧ (∀ n : Nat, n ∉ supportedProtoCodes → (guess_dtype n).isOk = false) := by
  refine ⟨?_, ?_, ?_⟩
  · intro d hd
    fin_cases hd <;> rfl
  · intro d hd
    cases d <;> first | rfl | exact absurd (by decide) hd
  intro n hn
  simp only [supportedProtoCodes, List.mem_cons, List.not_mem_nil, or_false,
    not_or, FLOAT, UINT8, INT8, UINT16, INT16, INT32, INT64, STRING, BOOL,
    FLOAT16, DOUBLE, UINT32, UINT64] at hn
  obtain ⟨h1, h2, h3, h4, h5, h6, h7, h8, h9, h10, h11, h12, h13⟩ := hn
  simp [guess_dtype, FLOAT, UINT8, INT8, UINT16, INT16, INT32, INT64, STRING,
    BOOL, FLOAT16, DOUBLE, UINT32, UINT64, h1, h2, h3, h4, h5, h6, h7, h8, h9,
    h10, h11, h12, h13, Except.isOk, Except.toBool]

/-- Witness for C10: the round trip at `float16`, failure of
`guess_proto_dtype` at `complex64`, and failure of `guess_dtype` at the
unsupported code `16` (BFLOAT16). -/
theorem C10_dtype_roundtrip_witness :
    (guess_proto_dtype .float16).bind guess_dtype = .ok .float16
    ∧ (guess_proto_dtype .complex64).isOk = false
    ∧ (guess_dtype 16).isOk = false :=
  ⟨C10_dtype_roundtrip.1 .float16 (by decide),
   C10_dtype_roundtrip.2.1 .complex64 (by decide),
   C10_dtype_roundtrip.2.2 16 (by decide)⟩

end Mlprodict

namespace Mlprodict

/-! ## Tensors and the numpy global random state

Numpy floating-point values are modelled as exact rationals; `astype` is
kept as an explicit marker but does not model rounding.  The global numpy
random state (`numpy.random`) is an infinite stream of draws together
with the current position; `rand`/`randn` read the next values and
advance the position.
-/

/-- A dense numpy array: a shape and the flattened (row-major) buffer. -/
structure TensorQ where
  shape : List Nat
  data : List ℚ
  deriving DecidableEq, Repr

/-- `x.astype(dtype)`: dtype casts are not value-changing in this model
(rounding of exact rationals is not modelled). -/
def astype (_dtype : NpDtype) (v : ℚ) : ℚ := v

/-- The global `numpy.random` state: a stream of future draws and the
current position in it. -/
structure NumpyRandomState where
  stream : Nat → ℚ
  pos : Nat

/-- Draw `n` values from the global random state, advancing its position.
Both `numpy.random.rand` and `numpy.random.randn` consume the shared
global stream; their distributions differ but both are modelled as
reading the next `n` draws. -/
def numpyDraw (n : Nat) (st : NumpyRandomState) : List ℚ × NumpyRandomState :=
  ((List.range n).map fun i => st.stream (st.pos + i), ⟨st.stream, st.pos + n⟩)

/-! ## op_random.py: RandomUniform and RandomNormal -/

/-- `onnx.mapping.TENSOR_TYPE_TO_NP_TYPE` restricted to the tensor codes:
the proto-code to numpy-dtype dictionary (`none` models `KeyError`). -/
def TENSOR_TYPE_TO_NP_TYPE (code : Nat) : Option NpDtype :=
  match (guess_dtype code).toOption with
  | some d => some d
  | none =>
      if code = TensorProto.COMPLEX64 then some .complex64
      else if code = TensorProto.COMPLEX128 then some .complex128
      else none

/-- The attributes of a RandomUniform node as they reach the constructor
(each `none` means the attribute is absent and the default from
`RandomUniform.atts` applies). -/
structure RandomUniformNode where
  dtype : Option Nat
  low : Option ℚ
  high : Option ℚ
  seed : Option ℚ
  shape : Option (List Nat)

/-- A constructed RandomUniform kernel (attributes resolved with the
defaults `dtype=1, low=0., high=1., seed=None, shape=[]`). -/
structure RandomUniform where
  dtype : Nat
  low : ℚ
  high : ℚ
  seed : Option ℚ
  shape : List Nat
  numpy_type : NpDtype

/-- Resolved `shape` attribute of a RandomUniform node (default `[]`). -/
def RandomUniformNode.resolvedShape (node : RandomUniformNode) : List Nat :=
  node.shape.getD []

/-- `RandomUniform.__init__` (op_random.py lines 56-64): merge attribute
defaults, raise `ValueError` when the resolved `shape` is empty, then
resolve `numpy_type` through `TENSOR_TYPE_TO_NP_TYPE` (whose `KeyError`
is the second error branch). -/
def RandomUniform.construct (node : RandomUniformNode) : Except String RandomUniform :=
  let dtype := node.dtype.getD 1
  let low := node.low.getD 0
  let high := node.high.getD 1
  let shape := node.resolvedShape
  if shape.length = 0 then
    .error "shape cannot be empty for operator RandomUniform."
  else
    match TENSOR_TYPE_TO_NP_TYPE dtype with
    | none => .error "KeyError: TENSOR_TYPE_TO_NP_TYPE"
    | some t => .ok ⟨dtype, low, high, node.seed, shape, t⟩

/-- `RandomUniform._run` (op_random.py lines 66-74): raise when inputs
are given, draw `prod shape` values from the global numpy random state
(the `seed` attribute is never consulted), then apply
`res * (high - low) + low` and the dtype casts. -/
def RandomUniform.runOp (k : RandomUniform) (args : List TensorQ)
    (st : NumpyRandomState) : Except String TensorQ × NumpyRandomState :=
  if args.length ≠ 0 then
    (.error "Operator RandomUniform cannot have inputs.", st)
  else
    let (vals, st') := numpyDraw k.shape.prod st
    let res := vals.map fun v =>
      astype k.numpy_type (astype k.numpy_type v * (k.high - k.low) + k.low)
    (.ok ⟨k.shape, res⟩, st')

/-- The attributes of a RandomNormal node as they reach the constructor. -/
structure RandomNormalNode where
  dtype : Option Nat
  mean : Option ℚ
  scale : Option ℚ
  seed : Option ℚ
  shape : Option (List Nat)

/-- A constructed RandomNormal kernel (defaults
`dtype=1, mean=0., scale=1., seed=None, shape=[]`). -/
structure RandomNormal where
  dtype : Nat
  mean : ℚ
  scale : ℚ
  seed : Option ℚ
  shape : List Nat
  numpy_type : NpDtype

/-- Resolved `shape` attribute of a RandomNormal node (default `[]`). -/
def RandomNormalNode.resolvedShape (node : RandomNormalNode) : List Nat :=
  node.shape.getD []

/-- `RandomNormal.__init__` (op_random.py lines 125-133): merge attribute
defaults, raise `ValueError` when the resolved `shape` is empty, then
resolve `numpy_type`. -/
def RandomNormal.construct (node : RandomNormalNode) : Except String RandomNormal :=
  let dtype := node.dtype.getD 1
  let mean := node.mean.getD 0
  let scale := node.scale.getD 1
  let shape := node.resolvedShape
  if shape.length = 0 then
    .error "shape cannot be empty for operator RandomNormal."
  else
    match TENSOR_TYPE_TO_NP_TYPE dtype with
    | none => .error "KeyError: TENSOR_TYPE_TO_NP_TYPE"
    | some t => .ok ⟨dtype, mean, scale, node.seed, shape, t⟩

/-- `RandomNormal._run` (op_random.py lines 135-142): raise when inputs
are given, draw from the global numpy random state (the `seed` attribute
is never consulted), then apply `res * scale + mean` and dtype casts. -/
def RandomNormal.runOp (k : RandomNormal) (args : List TensorQ)
    (st : NumpyRandomState) : Except String TensorQ × NumpyRandomState :=
  if args.length ≠ 0 then
    (.error "Operator RandomNormal cannot have inputs.", st)
  else
    let (vals, st') := numpyDraw k.shape.prod st
    let res := vals.map fun v =>
      astype k.numpy_type (astype k.numpy_type v * k.scale + k.mean)
    (.ok ⟨k.shape, res⟩, st')

/-- Concrete random state for the determinism counterexample: the stream
of draws 0, 1, 2, ... starting at position 0. -/
def c1State : NumpyRandomState := ⟨fun i => (i : ℚ), 0⟩

/-- The RandomUniform node with explicit attributes
`dtype=1, low=0., high=1., shape=[1]` and no seed. -/
def c1Node : RandomUniformNode := ⟨some 1, some 0, some 1, none, some [1]⟩

/-- The kernel `RandomUniform.construct c1Node` yields. -/
def c1Kernel : RandomUniform := ⟨1, 0, 1, none, [1], .float32⟩

end Mlprodict

namespace Mlprodict

/-- C1 counterexample: with the global random stream 0, 1, 2, ... at
position 0, two consecutive `RandomUniform._run` calls with the same
attributes (threading the global state) return different arrays, because
`_run` draws from the advancing global state and never consults the
`seed` attribute.  This refutes the claim that two such calls return
equal arrays. -/
theorem C1_determinism_counterexample :
    RandomUniform.construct c1Node = .ok c1Kernel
    ∧ (RandomUniform.runOp c1Kernel [] c1State).1 ≠
        (RandomUniform.runOp c1Kernel []
          (RandomUniform.runOp c1Kernel [] c1State).2).1 := by
  constructor
  · rfl
  · intro h
    simp [RandomUniform.runOp, numpyDraw, c1Kernel, c1State, astype,
      List.range_succ] at h

/-- C1 (amended): each random kernel's `_run` is a pure function of its
non-seed attributes and the global numpy random state: two kernels
agreeing on `low`/`high` (resp. `mean`/`scale`), `shape` and resolved
numpy type produce identical results and identical successor states from
the same global state, whatever their `seed` and `dtype` attributes.
Run-to-run determinism holds only at a fixed global random state. -/
theorem C1_random_pure_in_state_seed_ignored :
    (∀ (k k' : RandomUniform) (args : List TensorQ) (st : NumpyRandomState),
      k.low = k'.low → k.high = k'.high → k.shape = k'.shape →
      k.numpy_type = k'.numpy_type →
      RandomUniform.runOp k args st = RandomUniform.runOp k' args st)
    ∧ (∀ (k k' : RandomNormal) (args : List TensorQ) (st : NumpyRandomState),
      k.mean = k'.mean → k.scale = k'.scale → k.shape = k'.shape →
      k.numpy_type = k'.numpy_type →
      RandomNormal.runOp k args st = RandomNormal.runOp k' args st) := by
  constructor
  · intro k k' args st h1 h2 h3 h4
    simp [RandomUniform.runOp, h1, h2, h3, h4]
  · intro k k' args st h1 h2 h3 h4
    simp [RandomNormal.runOp, h1, h2, h3, h4]

/-- Witness for the amended C1: kernels differing only in their `seed`
attribute (none vs 42) behave identically on the stream 0, 1, 2, ... -/
theorem C1_random_pure_in_state_seed_ignored_witness :
    RandomUniform.runOp c1Kernel [] c1State =
      RandomUniform.runOp ⟨1, 0, 1, some 42, [1], .float32⟩ [] c1State
    ∧ RandomNormal.runOp ⟨1, 0, 1, none, [2], .float64⟩ [] c1State =
        RandomNormal.runOp ⟨1, 0, 1, some 42, [2], .float64⟩ [] c1State :=
  ⟨C1_random_pure_in_state_seed_ignored.1 c1Kernel ⟨1, 0, 1, some 42, [1], .float32⟩
      [] c1State rfl rfl rfl rfl,
   C1_random_pure_in_state_seed_ignored.2 ⟨1, 0, 1, none, [2], .float64⟩
      ⟨1, 0, 1, some 42, [2], .float64⟩ [] c1State rfl rfl rfl rfl⟩

/-- C7: a RandomUniform or RandomNormal node whose resolved `shape`
attribute is empty is rejected with `ValueError` by the constructor
itself: `construct` returns an error, so no kernel value exists on which
`_run` could ever be invoked. -/
theorem C7_empty_shape_fails_at_construction :
    ∀ (nu : RandomUniformNode) (nn : RandomNormalNode),
      nu.resolvedShape = [] → nn.resolvedShape = [] →
      RandomUniform.construct nu =
          .error "shape cannot be empty for operator RandomUniform."
        ∧ RandomNormal.construct nn =
          .error "shape cannot be empty for operator RandomNormal." := by
  intro nu nn hu hn
  constructor
  · simp [RandomUniform.construct, hu]
  · simp [RandomNormal.construct, hn]

/-- Witness for C7: nodes with an absent `shape` attribute (resolved to
the default `[]`) are rejected at construction. -/
theorem C7_empty_shape_fails_at_construction_witness :
    RandomUniformNode.resolvedShape ⟨none, none, none, none, none⟩ = []
    ∧ RandomUniform.construct ⟨none, none, none, none, none⟩ =
        .error "shape cannot be empty for operator RandomUniform."
    ∧ RandomNormal.construct ⟨none, none, none, none, none⟩ =
        .error "shape cannot be empty for operator RandomNormal." :=
  ⟨rfl,
   (C7_empty_shape_fails_at_construction ⟨none, none, none, none, none⟩
      ⟨none, none, none, none, none⟩ rfl rfl).1,
   (C7_empty_shape_fails_at_construction ⟨none, none, none, none, none⟩
      ⟨none, none, none, none, none⟩ rfl rfl).2⟩

end Mlprodict

namespace Mlprodict

/-! ## op_cum_sum.py: CumSum

Multi-dimensional arrays are flattened row-major; the position of a flat
index `i` along the cumulated axis is recovered from the sub-block sizes
`pre * s * post` of the shape.  `_run` returns the raised-or-computed
result together with the contents of the input buffer after the call,
making in-place mutation explicit.
-/

/-- Sizes around an axis: product of the dims before it, the dim itself,
and the product of the dims after it. -/
def axisDecomp (shape : List Nat) (ax : Nat) : Nat × Nat :=
  (shape.getD ax 1, (shape.drop (ax + 1)).prod)

/-- `numpy.cumsum(x)` with no axis: inclusive prefix sums of the
flattened buffer. -/
def cumsumFlat (data : List ℚ) : List ℚ :=
  (List.range data.length).map fun i =>
    ((List.range (i + 1)).map fun j => data.getD j 0).sum

/-- `numpy.cumsum(x, axis=ax)` on the flattened row-major buffer. -/
def cumsumAxis (shape : List Nat) (ax : Nat) (data : List ℚ) : List ℚ :=
  let (s, post) := axisDecomp shape ax
  (List.range data.length).map fun i =>
    let a := (i / post) % s
    ((List.range (a + 1)).map fun j => data.getD (i - (a - j) * post) 0).sum

/-- `x[rev_indices]`: the buffer read through the view that reverses the
axis `ax` (a view: it reads, never writes). -/
def reverseAxis (shape : List Nat) (ax : Nat) (data : List ℚ) : List ℚ :=
  let (s, post) := axisDecomp shape ax
  (List.range data.length).map fun i =>
    let a := (i / post) % s
    data.getD (i - a * post + (s - 1 - a) * post) 0

/-- The exclusive branch: `res = zeros; cumsum(x[c], out=res[d])` amounts
to: at axis position `a`, the sum of the strictly earlier slices. -/
def cumsumExclAxis (shape : List Nat) (ax : Nat) (data : List ℚ) : List ℚ :=
  let (s, post) := axisDecomp shape ax
  (List.range data.length).map fun i =>
    let a := (i / post) % s
    ((List.range a).map fun j => data.getD (i - (a - j) * post) 0).sum

/-- The second positional input of CumSum as the kernel sees it: a numpy
integer scalar (`numpy.int32`/`numpy.int64`) or an integer array with a
shape. -/
inductive AxisArg where
  | scalarInt (v : Int)
  | arr (data : List Int) (shape : List Nat)

/-- A constructed CumSum kernel: the `exclusive` and `reverse` integer
attributes (defaults 0) and the engine's in-place grant for output slot 0
(`self.inplaces.get(0, False)`). -/
structure CumSum where
  exclusive : Nat
  reverse : Nat
  inplace0 : Bool

/-- `CumSum._run` (op_cum_sum.py lines 21-56).  Returns the result (or
the raised error) and the contents of `x`'s buffer after the call; the
buffer differs from `x.data` only in the `out=x` branches, which the code
guards with `self.inplaces.get(0, False) and x.flags['WRITEABLE']`. -/
def CumSum.runOp (k : CumSum) (x : TensorQ) (xWriteable : Bool)
    (axisArgs : List AxisArg) : Except String TensorQ × List ℚ :=
  match axisArgs.head? with
  | none =>
      if k.reverse ≠ 0 ∨ k.exclusive ≠ 0 then
        (.error "reverse=1 or exclusive=1 not implemented", x.data)
      else if k.inplace0 && xWriteable then
        -- numpy.cumsum(x, out=x): the flattened result must fit x's shape
        if x.shape.length = 1 then
          let r := cumsumFlat x.data
          (.ok ⟨x.shape, r⟩, r)
        else (.error "provided out has the wrong shape", x.data)
      else (.ok ⟨[x.data.length], cumsumFlat x.data⟩, x.data)
  | some arg =>
      let axVal : Except String Int :=
        match arg with
        | .scalarInt v => .ok v
        | .arr d sh =>
            if sh.length > 1 ∨ (sh.length > 0 ∧ sh.getD 0 0 ≠ 1) then
              .error "axis must be an array of one number"
            else .ok (d.headD 0)
      match axVal with
      | .error e => (.error e, x.data)
      | .ok av =>
          let rank := x.shape.length
          let axi : Int := if av < 0 then av + rank else av
          if axi < 0 ∨ rank ≤ axi.toNat then
            (.error "axis is out of bounds", x.data)
          else
            let a := axi.toNat
            -- if self.reverse: x = x[rev_indices]  (a view on x's buffer)
            let xv := if k.reverse ≠ 0 then reverseAxis x.shape a x.data
                      else x.data
            if k.exclusive ≠ 0 then
              let res := cumsumExclAxis x.shape a xv
              let res2 := if k.reverse ≠ 0 then reverseAxis x.shape a res
                          else res
              (.ok ⟨x.shape, res2⟩, x.data)
            else
              let res := cumsumAxis x.shape a xv
              let res2 := if k.reverse ≠ 0 then reverseAxis x.shape a res
                          else res
              if k.inplace0 && xWriteable then
                -- numpy.cumsum(xv, axis=a, out=xv) writes through the view
                (.ok ⟨x.shape, res2⟩, res2)
              else (.ok ⟨x.shape, res2⟩, x.data)

end Mlprodict

namespace Mlprodict

/-- C8: for every input array, writeability flag and axis/attribute
combination, `CumSum._run` leaves the contents of the input buffer
unchanged whenever in-place permission for output slot 0 has not been
granted or the input is not writeable. -/
theorem C8_cumsum_no_mutation_without_grant :
    ∀ (k : CumSum) (x : TensorQ) (w : Bool) (args : List AxisArg),
      (k.inplace0 = false ∨ w = false) →
      (CumSum.runOp k x w args).2 = x.data := by
  intro k x w args h
  have hg : (k.inplace0 && w) = false := by
    rcases h with h | h <;> simp [h]
  unfold CumSum.runOp
  cases args.head? with
  | none =>
      simp only [hg, Bool.false_eq_true, if_false]
      split <;> simp
  | some arg =>
      cases arg with
      | scalarInt v =>
          simp only [hg, Bool.false_eq_true, if_false]
          split <;> split_ifs <;> rfl
      | arr d sh =>
          simp only [hg, Bool.false_eq_true, if_false]
          split
          · simp
          · split <;> split_ifs <;> rfl

/-- Witness for C8: with the grant present but the buffer read-only
(`WRITEABLE` false), a reversed axis-1 cumsum on a 2 x 2 tensor leaves
the input buffer untouched. -/
theorem C8_cumsum_no_mutation_without_grant_witness :
    (CumSum.runOp ⟨0, 1, true⟩ ⟨[2, 2], [1, 2, 3, 4]⟩ false
      [.scalarInt 1]).2 = [1, 2, 3, 4] :=
  C8_cumsum_no_mutation_without_grant ⟨0, 1, true⟩ ⟨[2, 2], [1, 2, 3, 4]⟩
    false [.scalarInt 1] (Or.inr rfl)

end Mlprodict

namespace Mlprodict

/-! ## onnx_shape_inference.py: shapes, results, containers

`ShapeResult` and `ShapeContainer` live in
`mlprodict/onnxrt/ops_shape/shape_result.py` and `shape_container.py`,
which are not part of the provided sources; they are modelled from the
spec (section 4.5 and the ShapeResult data model): per-name shape (each
dim concrete or a named symbol), dtype, sparse flag; the container
records a result and reports whether that changed anything.
-/

/-- A tensor dimension: a concrete size or a named symbolic dimension.
Two symbolic dims are equal only when they carry the same name. -/
inductive Dim where
  | val (n : Nat)
  | sym (s : String)
  deriving DecidableEq, Repr

/-- Modelled from the spec: ShapeResult (ops_shape/shape_result.py, not
under src/) — per-name shape (`none` = fully unknown rank), dtype
(`none` = unknown), sparse flag. -/
structure ShapeResult where
  name : String
  shape : Option (List Dim)
  dtype : Option NpDtype
  sparse : Bool
  deriving DecidableEq, Repr

/-- Association-list core of the shape container, with Python dict
semantics: replacing an existing key keeps its position, a new key is
appended. -/
def setEntryList : List (String × ShapeResult) → String → ShapeResult →
    List (String × ShapeResult)
  | [], name, r => [(name, r)]
  | p :: rest, name, r =>
      if p.1 = name then (name, r) :: rest else p :: setEntryList rest name r

/-- Lookup in the association list (first match). -/
def findRList : List (String × ShapeResult) → String → Option ShapeResult
  | [], _ => none
  | p :: rest, name => if p.1 = name then some p.2 else findRList rest name

/-- Modelled from the spec: ShapeContainer
(ops_shape/shape_container.py, not under src/) — the name-to-ShapeResult
map refined towards the fixed point, plus the counter backing
`get_new_name` for generated symbolic dimension names. -/
structure ShapeContainer where
  entries : List (String × ShapeResult)
  names : Nat
  deriving DecidableEq, Repr

def ShapeContainer.empty : ShapeContainer := ⟨[], 0⟩

def ShapeContainer.findR (c : ShapeContainer) (name : String) :
    Option ShapeResult :=
  findRList c.entries name

def ShapeContainer.containsName (c : ShapeContainer) (name : String) : Bool :=
  (c.findR name).isSome

def ShapeContainer.setEntry (c : ShapeContainer) (name : String)
    (r : ShapeResult) : ShapeContainer :=
  ⟨setEntryList c.entries name r, c.names⟩

/-- Modelled from the spec: `ShapeContainer.update` — record a
ShapeResult under a name if it is new or changed, and report whether a
change happened (section 4.5: "record it if new/changed"). -/
def ShapeContainer.update (c : ShapeContainer) (name : String)
    (r : ShapeResult) : ShapeContainer × Bool :=
  match c.findR name with
  | some r0 => if r0 = r then (c, false) else (c.setEntry name r, true)
  | none => (c.setEntry name r, true)

/-- Modelled from the spec: `ShapeContainer.get_new_name` — generate a
fresh symbolic dimension name for an unnamed unspecified dimension. -/
def ShapeContainer.get_new_name (c : ShapeContainer) (_result_name : String)
    (_dimi : Nat) : Dim × ShapeContainer :=
  (Dim.sym ("unk_" ++ toString c.names), ⟨c.entries, c.names + 1⟩)

/-- Modelled from the spec: `ShapeContainer.resolve` substitutes known
concrete values for symbolic dimensions where the container has recorded
them; it adds no new entries and no new input information, which is all
the claims below depend on, so it is the identity here. -/
def ShapeContainer.resolve (c : ShapeContainer) : ShapeContainer := c

theorem findRList_setEntryList (l : List (String × ShapeResult))
    (name : String) (r : ShapeResult) (q : String) :
    findRList (setEntryList l name r) q =
      if q = name then some r else findRList l q := by
  induction l with
  | nil =>
      simp only [setEntryList, findRList]
      by_cases h : q = name
      · subst h
        simp
      · rw [if_neg (fun he => h he.symm), if_neg h]
  | cons p rest ih =>
      by_cases h1 : p.1 = name
      · by_cases h : q = name
        · subst h
          simp [setEntryList, h1, findRList]
        · have h2 : ¬ name = q := fun he => h he.symm
          have h3 : ¬ p.1 = q := fun he => h (he.symm.trans h1)
          simp [setEntryList, h1, findRList, h, h2, h3]
      · by_cases hpq : p.1 = q
        · have hqn : ¬ q = name := fun he => h1 (hpq.trans he)
          simp [setEntryList, h1, findRList, hpq, hqn]
        · by_cases hqn : q = name
          · subst hqn
            simp [setEntryList, h1, findRList, hpq, ih]
          · simp [setEntryList, h1, findRList, hpq, hqn, ih]

theorem ShapeContainer.findR_setEntry (c : ShapeContainer) (name : String)
    (r : ShapeResult) (q : String) :
    (c.setEntry name r).findR q = if q = name then some r else c.findR q := by
  simp [ShapeContainer.findR, ShapeContainer.setEntry, findRList_setEntryList]

theorem ShapeContainer.update_findR_ne (c : ShapeContainer) (name : String)
    (r : ShapeResult) (q : String) (h : q ≠ name) :
    (c.update name r).1.findR q = c.findR q := by
  rcases hf : c.findR name with _ | r0
  · simp [ShapeContainer.update, hf, ShapeContainer.findR_setEntry, h]
  · by_cases he : r0 = r
    · simp [ShapeContainer.update, hf, he]
    · simp [ShapeContainer.update, hf, he, ShapeContainer.findR_setEntry, h]

theorem ShapeContainer.update_findR_self (c : ShapeContainer) (name : String)
    (r : ShapeResult) : (c.update name r).1.findR name = some r := by
  rcases hf : c.findR name with _ | r0
  · simp [ShapeContainer.update, hf, ShapeContainer.findR_setEntry]
  · by_cases he : r0 = r
    · subst he
      simp [ShapeContainer.update, hf]
    · simp [ShapeContainer.update, hf, he, ShapeContainer.findR_setEntry]

theorem ShapeContainer.update_false {c : ShapeContainer} {name : String}
    {r : ShapeResult} (h : (c.update name r).2 = false) :
    (c.update name r).1 = c := by
  rcases hf : c.findR name with _ | r0
  · simp [ShapeContainer.update, hf] at h
  · by_cases he : r0 = r
    · simp [ShapeContainer.update, hf, he]
    · simp [ShapeContainer.update, hf, he] at h

theorem ShapeContainer.update_noop {c : ShapeContainer} {name : String}
    {r : ShapeResult} (h : c.findR name = some r) :
    c.update name r = (c, false) := by
  unfold ShapeContainer.update
  rw [h]
  simp

theorem ShapeContainer.update_isSome (c : ShapeContainer) (name : String)
    (r : ShapeResult) (q : String) (h : (c.findR q).isSome) :
    ((c.update name r).1.findR q).isSome := by
  by_cases hq : q = name
  · subst hq
    simp [ShapeContainer.update_findR_self]
  · rw [ShapeContainer.update_findR_ne c name r q hq]
    exact h

end Mlprodict

namespace Mlprodict

/-! ## Modelled shape rules and `shape_dispatch`

`shape_dispatch` (mlprodict/onnxrt/ops_shape/__init__.py) is not under
src/; it is modelled from spec section 4.5: for each node whose inputs
all have a ShapeResult, compute the outputs through an operator-specific
rule and record them if new/changed; an unknown operator marks its
outputs fully unknown and the pass continues.  The rule set here carries
Identity and the elementwise broadcasting operators.
-/

/-- A graph node: operator type, input names, output names. -/
structure NodeT where
  op_type : String
  input : List String
  output : List String
  deriving DecidableEq, Repr

/-- Broadcasting of one dimension pair (spec section 4.2): the non-1
value when compatible, symbolic when either side is symbolic and not
provably 1 (left-biased for the remaining cases). -/
def broadcastDim : Dim → Dim → Dim
  | .val 1, d => d
  | d, .val 1 => d
  | .val a, .val _ => .val a
  | .sym s, _ => .sym s
  | .val a, .sym _ => .val a

/-- Broadcasting of two shapes: align right, pad the shorter one with 1,
combine dimension-wise; output rank is the max of the input ranks. -/
def broadcastShape (a b : List Dim) : List Dim :=
  let n := max a.length b.length
  List.zipWith broadcastDim
    (List.replicate (n - a.length) (Dim.val 1) ++ a)
    (List.replicate (n - b.length) (Dim.val 1) ++ b)

/-- The elementwise operators carried by the modelled rule set. -/
def elementwiseOps : List String := ["Add", "Sub", "Mul", "Div"]

/-- The Identity rule: copy the first input's ShapeResult to every
output name. -/
def identityOuts (c : ShapeContainer) (inputs outputs : List String) :
    Option (List (String × ShapeResult)) :=
  match inputs with
  | [] => none
  | i :: _ =>
      (c.findR i).map fun r =>
        outputs.map fun o => (o, ⟨o, r.shape, r.dtype, r.sparse⟩)

/-- Shape part of the elementwise rule: broadcast when both input shapes
are known, unknown otherwise. -/
def elemwiseShape : Option (List Dim) → Option (List Dim) → Option (List Dim)
  | some s1, some s2 => some (broadcastShape s1 s2)
  | _, _ => none

/-- Dtype part of the elementwise rule: the first known input dtype. -/
def elemwiseDtype : Option NpDtype → Option NpDtype → Option NpDtype
  | some d, _ => some d
  | none, d2 => d2

/-- The elementwise rule: broadcast the two input shapes onto every
output name. -/
def elemwiseOuts (c : ShapeContainer) (inputs outputs : List String) :
    Option (List (String × ShapeResult)) :=
  match inputs with
  | [i1, i2] =>
      (c.findR i1).bind fun r1 =>
        (c.findR i2).map fun r2 =>
          outputs.map fun o =>
            (o, ⟨o, elemwiseShape r1.shape r2.shape,
                 elemwiseDtype r1.dtype r2.dtype, false⟩)
  | _ => none

/-- The output ShapeResults a node's shape rule produces from the
container, or `none` when the rule cannot fire yet (an input has no
ShapeResult).  Reads the container only at the node's input names; an
operator outside the rule set marks all its outputs fully unknown. -/
def nodeOuts (c : ShapeContainer) (n : NodeT) :
    Option (List (String × ShapeResult)) :=
  if n.op_type = "Identity" then identityOuts c n.input n.output
  else if n.op_type ∈ elementwiseOps then elemwiseOuts c n.input n.output
  else some (n.output.map fun o => (o, ⟨o, none, none, false⟩))

/-- Record a rule's outputs one by one, or-ing the per-output change
flags of `ShapeContainer.update`. -/
def ShapeContainer.updateMany (c : ShapeContainer) :
    List (String × ShapeResult) → ShapeContainer × Bool
  | [] => (c, false)
  | (n, r) :: rest =>
      let p := c.update n r
      let q := p.1.updateMany rest
      (q.1, p.2 || q.2)

/-- Modelled from the spec: `shape_dispatch(known_shapes, node)` — apply
the node's shape rule and record the outputs, returning whether anything
changed. -/
def shape_dispatch (c : ShapeContainer) (n : NodeT) : ShapeContainer × Bool :=
  match nodeOuts c n with
  | none => (c, false)
  | some outs => c.updateMany outs

theorem updateMany_false {outs : List (String × ShapeResult)} :
    ∀ {c : ShapeContainer}, (c.updateMany outs).2 = false →
      (c.updateMany outs).1 = c := by
  induction outs with
  | nil => intro c _; rfl
  | cons p rest ih =>
      intro c h
      simp only [ShapeContainer.updateMany, Bool.or_eq_false_iff] at h ⊢
      obtain ⟨h1, h2⟩ := h
      have e1 := ShapeContainer.update_false h1
      rw [e1] at h2 ⊢
      exact ih h2

theorem updateMany_findR_notkey {outs : List (String × ShapeResult)} :
    ∀ {c : ShapeContainer} {q : String}, q ∉ outs.map Prod.fst →
      (c.updateMany outs).1.findR q = c.findR q := by
  induction outs with
  | nil => intro c q _; rfl
  | cons p rest ih =>
      intro c q hq
      simp only [List.map_cons, List.mem_cons, not_or] at hq
      obtain ⟨hq1, hq2⟩ := hq
      simp only [ShapeContainer.updateMany]
      rw [ih hq2, ShapeContainer.update_findR_ne _ _ _ _ hq1]

theorem updateMany_all_present {outs : List (String × ShapeResult)} :
    ∀ {c : ShapeContainer}, (outs.map Prod.fst).Nodup →
      ∀ p ∈ outs, (c.updateMany outs).1.findR p.1 = some p.2 := by
  induction outs with
  | nil => intro c _ p hp; cases hp
  | cons hd rest ih =>
      intro c hnd p hp
      simp only [List.map_cons, List.nodup_cons] at hnd
      obtain ⟨hh, ht⟩ := hnd
      rcases List.mem_cons.mp hp with hp | hp
      · subst hp
        simp only [ShapeContainer.updateMany]
        rw [updateMany_findR_notkey hh, ShapeContainer.update_findR_self]
      · simp only [ShapeContainer.updateMany]
        exact ih ht p hp

theorem updateMany_noop {outs : List (String × ShapeResult)} :
    ∀ {c : ShapeContainer}, (∀ p ∈ outs, c.findR p.1 = some p.2) →
      c.updateMany outs = (c, false) := by
  induction outs with
  | nil => intro c _; rfl
  | cons hd rest ih =>
      intro c h
      obtain ⟨n1, r1⟩ := hd
      have h1 : c.update n1 r1 = (c, false) :=
        ShapeContainer.update_noop (h (n1, r1) (List.mem_cons_self _ rest))
      simp only [ShapeContainer.updateMany, h1]
      have h2 := ih (fun p hp => h p (List.mem_cons_of_mem _ hp))
      simp [h2]

theorem updateMany_flag_congr {outs : List (String × ShapeResult)} :
    ∀ {c1 c2 : ShapeContainer}, (∀ p ∈ outs, c1.findR p.1 = c2.findR p.1) →
      (c1.updateMany outs).2 = (c2.updateMany outs).2 := by
  induction outs with
  | nil => intro c1 c2 _; rfl
  | cons hd rest ih =>
      intro c1 c2 h
      have hhd := h hd (List.mem_cons_self hd rest)
      simp only [ShapeContainer.updateMany]
      have hflag : (c1.update hd.1 hd.2).2 = (c2.update hd.1 hd.2).2 := by
        unfold ShapeContainer.update
        rw [hhd]
        rcases c2.findR hd.1 with _ | r0
        · rfl
        · simp only []
          split_ifs <;> rfl
      rw [hflag]
      have hrest : ∀ p ∈ rest,
          ((c1.update hd.1 hd.2).1).findR p.1 =
            ((c2.update hd.1 hd.2).1).findR p.1 := by
        intro p hp
        by_cases hpk : p.1 = hd.1
        · rw [hpk, ShapeContainer.update_findR_self,
            ShapeContainer.update_findR_self]
        · rw [ShapeContainer.update_findR_ne _ _ _ _ hpk,
            ShapeContainer.update_findR_ne _ _ _ _ hpk]
          exact h p (List.mem_cons_of_mem hd hp)
      rw [ih hrest]

theorem updateMany_isSome {outs : List (String × ShapeResult)} :
    ∀ {c : ShapeContainer} {q : String}, (c.findR q).isSome →
      ((c.updateMany outs).1.findR q).isSome := by
  induction outs with
  | nil => intro c q h; exact h
  | cons hd rest ih =>
      intro c q h
      simp only [ShapeContainer.updateMany]
      exact ih (ShapeContainer.update_isSome _ _ _ _ h)

end Mlprodict

namespace Mlprodict

theorem map_fst_pairs (f : String → ShapeResult) :
    ∀ l : List String, (l.map fun o => (o, f o)).map Prod.fst = l := by
  intro l
  induction l with
  | nil => rfl
  | cons a t ih => simp [ih]

theorem identityOuts_keys {c : ShapeContainer} {ins outs0 : List String}
    {outs : List (String × ShapeResult)}
    (h : identityOuts c ins outs0 = some outs) : outs.map Prod.fst = outs0 := by
  cases ins with
  | nil => cases h
  | cons i rest =>
      simp only [identityOuts] at h
      obtain ⟨r, hr, hout⟩ := Option.map_eq_some'.mp h
      subst hout
      exact map_fst_pairs _ outs0

theorem elemwiseOuts_keys {c : ShapeContainer} {ins outs0 : List String}
    {outs : List (String × ShapeResult)}
    (h : elemwiseOuts c ins outs0 = some outs) : outs.map Prod.fst = outs0 := by
  rcases ins with _ | ⟨i1, _ | ⟨i2, _ | ⟨i3, irest⟩⟩⟩
  · cases h
  · cases h
  · simp only [elemwiseOuts] at h
    obtain ⟨r1, hr1, h⟩ := Option.bind_eq_some.mp h
    obtain ⟨r2, hr2, hout⟩ := Option.map_eq_some'.mp h
    subst hout
    exact map_fst_pairs _ outs0
  · cases h

theorem nodeOuts_keys {c : ShapeContainer} {n : NodeT}
    {outs : List (String × ShapeResult)} (h : nodeOuts c n = some outs) :
    outs.map Prod.fst = n.output := by
  unfold nodeOuts at h
  split_ifs at h with h1 h2
  · exact identityOuts_keys h
  · exact elemwiseOuts_keys h
  · injection h with h
    subst h
    exact map_fst_pairs _ n.output

theorem identityOuts_congr {c1 c2 : ShapeContainer} {ins outs0 : List String}
    (h : ∀ s ∈ ins, c1.findR s = c2.findR s) :
    identityOuts c1 ins outs0 = identityOuts c2 ins outs0 := by
  cases ins with
  | nil => rfl
  | cons i rest =>
      simp only [identityOuts]
      rw [h i (List.mem_cons_self i rest)]

theorem elemwiseOuts_congr {c1 c2 : ShapeContainer} {ins outs0 : List String}
    (h : ∀ s ∈ ins, c1.findR s = c2.findR s) :
    elemwiseOuts c1 ins outs0 = elemwiseOuts c2 ins outs0 := by
  rcases ins with _ | ⟨i1, _ | ⟨i2, _ | ⟨i3, irest⟩⟩⟩
  · rfl
  · rfl
  · simp only [elemwiseOuts]
    rw [h i1 (by simp), h i2 (by simp)]
  · rfl

theorem nodeOuts_congr {c1 c2 : ShapeContainer} {n : NodeT}
    (h : ∀ s ∈ n.input, c1.findR s = c2.findR s) :
    nodeOuts c1 n = nodeOuts c2 n := by
  unfold nodeOuts
  split_ifs with h1 h2
  · exact identityOuts_congr h
  · exact elemwiseOuts_congr h
  · rfl

theorem shape_dispatch_eq_none {c : ShapeContainer} {n : NodeT}
    (ho : nodeOuts c n = none) : shape_dispatch c n = (c, false) := by
  unfold shape_dispatch
  rw [ho]

theorem shape_dispatch_eq_some {c : ShapeContainer} {n : NodeT}
    {outs : List (String × ShapeResult)} (ho : nodeOuts c n = some outs) :
    shape_dispatch c n = c.updateMany outs := by
  unfold shape_dispatch
  rw [ho]

theorem shape_dispatch_false {c : ShapeContainer} {n : NodeT}
    (h : (shape_dispatch c n).2 = false) : (shape_dispatch c n).1 = c := by
  cases ho : nodeOuts c n with
  | none => rw [shape_dispatch_eq_none ho]
  | some outs =>
      rw [shape_dispatch_eq_some ho] at h ⊢
      exact updateMany_false h

theorem shape_dispatch_writes {c : ShapeContainer} {n : NodeT} {q : String}
    (h : q ∉ n.output) : (shape_dispatch c n).1.findR q = c.findR q := by
  cases ho : nodeOuts c n with
  | none => rw [shape_dispatch_eq_none ho]
  | some outs =>
      rw [shape_dispatch_eq_some ho]
      have hk := nodeOuts_keys ho
      exact updateMany_findR_notkey (by rw [hk]; exact h)

theorem shape_dispatch_isSome {c : ShapeContainer} {n : NodeT} {q : String}
    (h : (c.findR q).isSome) : ((shape_dispatch c n).1.findR q).isSome := by
  cases ho : nodeOuts c n with
  | none => rw [shape_dispatch_eq_none ho]; exact h
  | some outs => rw [shape_dispatch_eq_some ho]; exact updateMany_isSome h

theorem shape_dispatch_flag_congr {c1 c2 : ShapeContainer} {n : NodeT}
    (hin : ∀ s ∈ n.input, c1.findR s = c2.findR s)
    (hout : ∀ s ∈ n.output, c1.findR s = c2.findR s) :
    (shape_dispatch c1 n).2 = (shape_dispatch c2 n).2 := by
  cases ho : nodeOuts c2 n with
  | none =>
      rw [shape_dispatch_eq_none ho,
        shape_dispatch_eq_none ((nodeOuts_congr hin).trans ho)]
  | some outs =>
      rw [shape_dispatch_eq_some ho,
        shape_dispatch_eq_some ((nodeOuts_congr hin).trans ho)]
      have hk := nodeOuts_keys ho
      refine updateMany_flag_congr ?_
      intro p hp
      refine hout p.1 ?_
      rw [← hk]
      exact List.mem_map_of_mem Prod.fst hp

/-- A node is stable in a container when dispatching it reports no
change. -/
def Stable (c : ShapeContainer) (n : NodeT) : Prop :=
  (shape_dispatch c n).2 = false

instance (c : ShapeContainer) (n : NodeT) : Decidable (Stable c n) :=
  inferInstanceAs (Decidable ((shape_dispatch c n).2 = false))

theorem stable_congr {c1 c2 : ShapeContainer} {n : NodeT}
    (hin : ∀ s ∈ n.input, c1.findR s = c2.findR s)
    (hout : ∀ s ∈ n.output, c1.findR s = c2.findR s)
    (h : Stable c1 n) : Stable c2 n := by
  unfold Stable at h ⊢
  rw [← shape_dispatch_flag_congr hin hout]
  exact h

theorem shape_dispatch_stable_after {c : ShapeContainer} {n : NodeT}
    (hnd : n.output.Nodup) (hio : ∀ s ∈ n.input, s ∉ n.output) :
    Stable (shape_dispatch c n).1 n := by
  cases ho : nodeOuts c n with
  | none =>
      rw [shape_dispatch_eq_none ho]
      unfold Stable
      rw [shape_dispatch_eq_none ho]
  | some outs =>
      rw [shape_dispatch_eq_some ho]
      have hk := nodeOuts_keys ho
      have hin : ∀ s ∈ n.input,
          (c.updateMany outs).1.findR s = c.findR s := by
        intro s hs
        exact updateMany_findR_notkey (by rw [hk]; exact hio s hs)
      have ho' : nodeOuts (c.updateMany outs).1 n = some outs :=
        (nodeOuts_congr hin).trans ho
      unfold Stable
      rw [shape_dispatch_eq_some ho']
      have hpresent : ∀ p ∈ outs,
          (c.updateMany outs).1.findR p.1 = some p.2 :=
        updateMany_all_present (by rw [hk]; exact hnd)
      rw [updateMany_noop hpresent]

theorem stable_preserve {c : ShapeContainer} {n a : NodeT}
    (hst : Stable c a)
    (h1 : ∀ s ∈ a.input, s ∉ n.output)
    (h2 : ∀ s ∈ a.output, s ∉ n.output) :
    Stable (shape_dispatch c n).1 a := by
  refine stable_congr ?_ ?_ hst
  · intro s hs
    exact (shape_dispatch_writes (h1 s hs)).symm
  · intro s hs
    exact (shape_dispatch_writes (h2 s hs)).symm

end Mlprodict

namespace Mlprodict

/-- One pass of the propagation loop body
(`for node in self.model_onnx.graph.node: cont = cont or
shape_dispatch(known_shapes, node)`, onnx_shape_inference.py lines
120-123 and 146-149): because the Python `or` short-circuits, once one
dispatch reports a change the remaining nodes of that pass are skipped. -/
def scanOnce : ShapeContainer → List NodeT → ShapeContainer × Bool
  | c, [] => (c, false)
  | c, n :: rest =>
      let p := shape_dispatch c n
      if p.2 then (p.1, true) else scanOnce p.1 rest

/-- The `while cont:` propagation loop, with explicit fuel: when the fuel
runs out while passes still report changes, the Python loop would still
be running (flag `true`). -/
def propagateLoop : Nat → ShapeContainer → List NodeT → ShapeContainer × Bool
  | 0, c, _ => (c, true)
  | fuel + 1, c, nodes =>
      let p := scanOnce c nodes
      if p.2 then propagateLoop fuel p.1 nodes else (p.1, false)

theorem scanOnce_false : ∀ {l : List NodeT} {c c' : ShapeContainer},
    scanOnce c l = (c', false) → c' = c ∧ ∀ n ∈ l, Stable c n := by
  intro l
  induction l with
  | nil =>
      intro c c' h
      injection h with h1 _
      exact ⟨h1.symm, by intro n hn; cases hn⟩
  | cons n rest ih =>
      intro c c' h
      simp only [scanOnce] at h
      by_cases hd : (shape_dispatch c n).2 = true
      · rw [if_pos hd] at h
        cases h
      · have hd' : (shape_dispatch c n).2 = false := by
          cases hb : (shape_dispatch c n).2
          · rfl
          · exact absurd hb hd
        rw [if_neg (by rw [hd']; exact Bool.false_ne_true)] at h
        rw [shape_dispatch_false hd'] at h
        obtain ⟨h1, h2⟩ := ih h
        refine ⟨h1, ?_⟩
        intro a ha
        rcases List.mem_cons.mp ha with ha | ha
        · subst ha
          exact hd'
        · exact h2 a ha

theorem scanOnce_all_stable : ∀ {l : List NodeT} {c : ShapeContainer},
    (∀ n ∈ l, Stable c n) → scanOnce c l = (c, false) := by
  intro l
  induction l with
  | nil => intro c _; rfl
  | cons n rest ih =>
      intro c h
      have hd : (shape_dispatch c n).2 = false := h n (List.mem_cons_self n rest)
      simp only [scanOnce]
      rw [if_neg (by rw [hd]; exact Bool.false_ne_true)]
      rw [shape_dispatch_false hd]
      exact ih (fun a ha => h a (List.mem_cons_of_mem n ha))

theorem scanOnce_true_split : ∀ {l : List NodeT} {c c' : ShapeContainer},
    scanOnce c l = (c', true) →
    ∃ l1 n l2, l = l1 ++ n :: l2 ∧ (∀ a ∈ l1, Stable c a) ∧ ¬ Stable c n ∧
      c' = (shape_dispatch c n).1 := by
  intro l
  induction l with
  | nil =>
      intro c c' h
      injection h with _ h2
      cases h2
  | cons n rest ih =>
      intro c c' h
      simp only [scanOnce] at h
      by_cases hd : (shape_dispatch c n).2 = true
      · rw [if_pos hd] at h
        injection h with h1 _
        refine ⟨[], n, rest, rfl, ?_, ?_, h1.symm⟩
        · intro a ha
          cases ha
        · simp [Stable, hd]
      · have hd' : (shape_dispatch c n).2 = false := by
          cases hb : (shape_dispatch c n).2
          · rfl
          · exact absurd hb hd
        rw [if_neg (by rw [hd']; exact Bool.false_ne_true)] at h
        rw [shape_dispatch_false hd'] at h
        obtain ⟨l1, m, l2, hl, hst, hun, hc⟩ := ih h
        refine ⟨n :: l1, m, l2, by rw [hl, List.cons_append], ?_, hun, hc⟩
        intro a ha
        rcases List.mem_cons.mp ha with ha | ha
        · subst ha
          exact hd'
        · exact hst a ha

end Mlprodict

namespace Mlprodict

/-- Ordering constraint between a node and one occurring later in the
node list: the later node produces neither the earlier node's inputs nor
its outputs. -/
def NodeT.laterDisjoint (a b : NodeT) : Prop :=
  (∀ s ∈ a.input, s ∉ b.output) ∧ (∀ s ∈ a.output, s ∉ b.output)

instance (a b : NodeT) : Decidable (a.laterDisjoint b) := by
  unfold NodeT.laterDisjoint
  infer_instance

/-- The Graph invariant of the spec data model (section 3): every node
input is produced by an earlier node, an initializer or a graph input,
each name is produced by exactly one node, and a node's output names are
distinct. -/
def wfGraph (l : List NodeT) : Prop :=
  (∀ n ∈ l, n.output.Nodup ∧ ∀ s ∈ n.input, s ∉ n.output)
  ∧ l.Pairwise NodeT.laterDisjoint

instance (l : List NodeT) : Decidable (wfGraph l) := by
  unfold wfGraph
  infer_instance

/-- Length of the maximal prefix of the node list whose nodes are all
stable in the container. -/
def stablePrefixLen (c : ShapeContainer) : List NodeT → Nat
  | [] => 0
  | n :: rest => if Stable c n then stablePrefixLen c rest + 1 else 0

theorem spl_le (c : ShapeContainer) :
    ∀ l : List NodeT, stablePrefixLen c l ≤ l.length := by
  intro l
  induction l with
  | nil => exact Nat.le_refl 0
  | cons n rest ih =>
      simp only [stablePrefixLen, List.length_cons]
      split_ifs
      · omega
      · omega

theorem spl_split {c : ShapeContainer} :
    ∀ (l1 : List NodeT) (n : NodeT) (l2 : List NodeT),
      (∀ a ∈ l1, Stable c a) → ¬ Stable c n →
      stablePrefixLen c (l1 ++ n :: l2) = l1.length := by
  intro l1
  induction l1 with
  | nil =>
      intro n l2 _ hun
      simp [stablePrefixLen, hun]
  | cons a t ih =>
      intro n l2 hst hun
      have ha : Stable c a := hst a (List.mem_cons_self a t)
      simp only [List.cons_append, stablePrefixLen, if_pos ha,
        List.length_cons, List.append_eq]
      rw [ih n l2 (fun b hb => hst b (List.mem_cons_of_mem a hb)) hun]

theorem spl_ge {c : ShapeContainer} :
    ∀ (l1 : List NodeT) (n : NodeT) (l2 : List NodeT),
      (∀ a ∈ l1, Stable c a) → Stable c n →
      l1.length + 1 ≤ stablePrefixLen c (l1 ++ n :: l2) := by
  intro l1
  induction l1 with
  | nil =>
      intro n l2 _ hn
      simp [stablePrefixLen, hn]
  | cons a t ih =>
      intro n l2 hst hn
      have ha : Stable c a := hst a (List.mem_cons_self a t)
      simp only [List.cons_append, stablePrefixLen, if_pos ha,
        List.length_cons, List.append_eq]
      have := ih n l2 (fun b hb => hst b (List.mem_cons_of_mem a hb)) hn
      omega

/-- For a well-formed node list the propagation loop reaches its fixed
point within `length + 1` passes: one pass per strict growth of the
stable prefix, plus the final full no-change pass. -/
theorem propagateLoop_fixpoint (l : List NodeT) (hwf : wfGraph l) :
    ∀ (fuel : Nat) (c : ShapeContainer),
      l.length - stablePrefixLen c l < fuel →
      ∃ c', propagateLoop fuel c l = (c', false) ∧
        scanOnce c' l = (c', false) := by
  intro fuel
  induction fuel with
  | zero =>
      intro c h
      exact absurd h (Nat.not_lt_zero _)
  | succ f ih =>
      intro c hm
      rcases hs : scanOnce c l with ⟨c1, ch⟩
      cases ch
      case false =>
        obtain ⟨he, _⟩ := scanOnce_false hs
        subst he
        exact ⟨c1, by simp [propagateLoop, hs], hs⟩
      case true =>
        obtain ⟨l1, n, l2, hl, hst, hun, hc1⟩ := scanOnce_true_split hs
        have hp := hwf.2
        rw [hl, List.pairwise_append] at hp
        obtain ⟨_, _, hp3⟩ := hp
        have hnmem : n ∈ l := by
          rw [hl]
          exact List.mem_append_right _ (List.mem_cons_self n l2)
        obtain ⟨hnd, hio⟩ := hwf.1 n hnmem
        have key2 : Stable c1 n := by
          rw [hc1]
          exact shape_dispatch_stable_after hnd hio
        have key1 : ∀ a ∈ l1, Stable c1 a := by
          intro a ha
          have hr := hp3 a ha n (List.mem_cons_self n l2)
          rw [hc1]
          exact stable_preserve (hst a ha) hr.1 hr.2
        have hspl_c : stablePrefixLen c l = l1.length := by
          rw [hl]
          exact spl_split l1 n l2 hst hun
        have hspl_c1 : l1.length + 1 ≤ stablePrefixLen c1 l := by
          rw [hl]
          exact spl_ge l1 n l2 key1 key2
        have hlen : l.length = l1.length + l2.length + 1 := by
          rw [hl]
          simp [List.length_append]
          omega
        have hb1 := spl_le c1 l
        have hm' : l.length - stablePrefixLen c1 l < f := by omega
        obtain ⟨c', hl1, hl2⟩ := ih c1 hm'
        exact ⟨c', by simp [propagateLoop, hs, hl1], hl2⟩

end Mlprodict

namespace Mlprodict

/-! ## onnx_shape_inference.py: OnnxShapeInference

The onnx protobuf structures are embedded as plain records: an
initializer carries the concrete shape and dtype of its stored data
(what `to_array(init)` exposes), a value info carries the declared
element type code and dim list (`dim_value` 0 means unset, `dim_param`
empty means unnamed).
-/

structure InitializerT where
  name : String
  shape : List Nat
  dtype : NpDtype
  deriving DecidableEq, Repr

structure DimProto where
  dim_value : Nat
  dim_param : String
  deriving DecidableEq, Repr, Inhabited

structure ValueInfoT where
  name : String
  elem_type : Nat
  dims : List DimProto
  deriving DecidableEq, Repr

structure ModelProto where
  initializer : List InitializerT
  input : List ValueInfoT
  output : List ValueInfoT
  node : List NodeT
  deriving DecidableEq, Repr

/-- The dim loop of `OnnxShapeInference._get_shape`
(onnx_shape_inference.py lines 71-80): `dim_value` when positive, else
the named `dim_param`, else a generated name from
`known_shapes.get_new_name`. -/
def getShapeDims (name : String) :
    List DimProto → Nat → ShapeContainer → List Dim × ShapeContainer
  | [], _, c => ([], c)
  | d :: rest, dimi, c =>
      if d.dim_value > 0 then
        let r := getShapeDims name rest (dimi + 1) c
        (Dim.val d.dim_value :: r.1, r.2)
      else if d.dim_param ≠ "" then
        let r := getShapeDims name rest (dimi + 1) c
        (Dim.sym d.dim_param :: r.1, r.2)
      else
        let q := c.get_new_name name dimi
        let r := getShapeDims name rest (dimi + 1) q.2
        (q.1 :: r.1, r.2)

/-- `OnnxShapeInference._get_shape` (lines 67-81): shape, dtype from
`TENSOR_TYPE_TO_NP_TYPE.get(elem_type, None)`, sparse `False`; threads
the container because `get_new_name` advances its name counter. -/
def OnnxShapeInference.getShape (obj : ValueInfoT) (known : ShapeContainer) :
    (List Dim × Option NpDtype × Bool) × ShapeContainer :=
  let dtype := TENSOR_TYPE_TO_NP_TYPE obj.elem_type
  let r := getShapeDims obj.name obj.dims 0 known
  ((r.1, dtype, false), r.2)

/-- Seeding step for one initializer (lines 90-93): the ShapeResult
carries the concrete shape and dtype of the stored data. -/
def seedInitStep (c : ShapeContainer) (init : InitializerT) : ShapeContainer :=
  (c.update init.name
    ⟨init.name, some (init.shape.map Dim.val), some init.dtype, false⟩).1

/-- Seeding step for one declared input (lines 95-103): raise on a name
already present (optional inputs unimplemented), else record the
declared type. -/
def seedInputStep (c : ShapeContainer) (obj : ValueInfoT) :
    Except String ShapeContainer :=
  if c.containsName obj.name then
    throw ("Optional inputs are not implemented yet. (name=" ++
      obj.name ++ ")")
  else
    let r := OnnxShapeInference.getShape obj c
    pure (r.2.update obj.name ⟨obj.name, some r.1.1, r.1.2.1, r.1.2.2⟩).1

/-- Seeding step for one declared output (lines 105-117): raise on a
duplicate name, skip an output whose declared element type is unknown
(`continue`), else record the declared type. -/
def seedOutputStep (c : ShapeContainer) (obj : ValueInfoT) :
    Except String ShapeContainer :=
  if c.containsName obj.name then
    throw ("Output " ++ obj.name ++ " is already present. " ++
      "Use Identity node.")
  else
    match (OnnxShapeInference.getShape obj c).1.2.1 with
    | none => pure (OnnxShapeInference.getShape obj c).2
    | some dt =>
        pure ((OnnxShapeInference.getShape obj c).2.update obj.name
          ⟨obj.name, some (OnnxShapeInference.getShape obj c).1.1, some dt,
           (OnnxShapeInference.getShape obj c).1.2.2⟩).1

/-- The seeding part of `OnnxShapeInference._run_empty` (lines 89-117):
ShapeResults for every initializer (concrete shape/dtype of its data),
then every declared input, then every declared output. -/
def OnnxShapeInference.seedEmpty (m : ModelProto) :
    Except String ShapeContainer := do
  let c1 ← m.input.foldlM seedInputStep
    (m.initializer.foldl seedInitStep ShapeContainer.empty)
  let c2 ← m.output.foldlM seedOutputStep c1
  pure c2

/-- `OnnxShapeInference._run_empty` (lines 83-125): seed, then iterate
full scans until one reports no change.  The fuel `length + 1` is the
bound established by `propagateLoop_fixpoint`; a model on which the
Python `while` would still be running past that bound is reported as an
error. -/
def OnnxShapeInference.runEmpty (m : ModelProto) :
    Except String ShapeContainer := do
  let c ← OnnxShapeInference.seedEmpty m
  let p := propagateLoop (m.node.length + 1) c m.node
  if p.2 then throw "propagation loop still running after the fuel bound"
  else pure p.1

end Mlprodict

namespace Mlprodict

/-- C2: for every model whose graph satisfies the spec's Graph invariant
(section 3) and whose seeding pass succeeds, the propagation loop of
`_run_empty` terminates (within `length + 1` passes), and one additional
full scan of all nodes changes no entry of the returned container. -/
theorem C2_propagation_reaches_fixed_point :
    ∀ (m : ModelProto) (c0 : ShapeContainer), wfGraph m.node →
      OnnxShapeInference.seedEmpty m = .ok c0 →
      ∃ c, OnnxShapeInference.runEmpty m = .ok c ∧
        scanOnce c m.node = (c, false) := by
  intro m c0 hwf hseed
  have hfuel : m.node.length - stablePrefixLen c0 m.node <
      m.node.length + 1 := by
    have := spl_le c0 m.node
    omega
  obtain ⟨c, h1, h2⟩ :=
    propagateLoop_fixpoint m.node hwf (m.node.length + 1) c0 hfuel
  refine ⟨c, ?_, h2⟩
  unfold OnnxShapeInference.runEmpty
  rw [hseed]
  simp [Bind.bind, Except.bind, h1]
  rfl

/-- The witness model for C2: initializer `B` of shape `[1]`, input `X`
with symbolic batch dim `a`, one `Add` node producing the declared
output `Y`. -/
def c2Model : ModelProto :=
  { initializer := [⟨"B", [1], .float32⟩],
    input := [⟨"X", 1, [⟨0, "a"⟩]⟩],
    output := [⟨"Y", 1, [⟨0, "a"⟩]⟩],
    node := [⟨"Add", ["X", "B"], ["Y"]⟩] }

/-- The container `seedEmpty` produces for `c2Model`. -/
def c2Seeded : ShapeContainer :=
  ⟨[("B", ⟨"B", some [Dim.val 1], some .float32, false⟩),
    ("X", ⟨"X", some [Dim.sym "a"], some .float32, false⟩),
    ("Y", ⟨"Y", some [Dim.sym "a"], some .float32, false⟩)], 0⟩

/-- Witness for C2 at the concrete model. -/
theorem C2_propagation_reaches_fixed_point_witness :
    ∃ c, OnnxShapeInference.runEmpty c2Model = .ok c ∧
      scanOnce c c2Model.node = (c, false) :=
  C2_propagation_reaches_fixed_point c2Model c2Seeded (by decide) (by rfl)

end Mlprodict

namespace Mlprodict

theorem getShapeDims_entries (name : String) :
    ∀ (dims : List DimProto) (dimi : Nat) (c : ShapeContainer),
      (getShapeDims name dims dimi c).2.entries = c.entries := by
  intro dims
  induction dims with
  | nil => intro dimi c; rfl
  | cons d rest ih =>
      intro dimi c
      simp only [getShapeDims]
      split_ifs
      · exact ih (dimi + 1) c
      · exact ih (dimi + 1) c
      · rw [ih (dimi + 1)]
        rfl

theorem getShapeDims_findR (name : String) (dims : List DimProto)
    (dimi : Nat) (c : ShapeContainer) (q : String) :
    (getShapeDims name dims dimi c).2.findR q = c.findR q := by
  unfold ShapeContainer.findR
  rw [getShapeDims_entries]

/-- Correspondence between a declared protobuf dimension and the seeded
Dim: concrete when `dim_value` is positive, the named symbol when
`dim_param` is set, some generated symbol otherwise. -/
def dimMatches (d : DimProto) (dim : Dim) : Prop :=
  if d.dim_value > 0 then dim = .val d.dim_value
  else if d.dim_param ≠ "" then dim = .sym d.dim_param
  else ∃ s, dim = .sym s

theorem getShapeDims_matches (name : String) :
    ∀ (dims : List DimProto) (dimi : Nat) (c : ShapeContainer),
      List.Forall₂ dimMatches dims (getShapeDims name dims dimi c).1 := by
  intro dims
  induction dims with
  | nil => intro dimi c; exact List.Forall₂.nil
  | cons d rest ih =>
      intro dimi c
      simp only [getShapeDims]
      split_ifs with h1 h2
      · exact List.Forall₂.cons (by simp [dimMatches, h1]) (ih (dimi + 1) c)
      · exact List.Forall₂.cons (by simp [dimMatches, h1, h2]) (ih (dimi + 1) c)
      · refine List.Forall₂.cons ?_ (ih (dimi + 1) _)
        simp only [dimMatches, if_neg h1, if_neg h2]
        exact ⟨_, rfl⟩

theorem initFold_notmem :
    ∀ (inits : List InitializerT) (c : ShapeContainer) (q : String),
      q ∉ inits.map InitializerT.name →
      (inits.foldl seedInitStep c).findR q = c.findR q := by
  intro inits
  induction inits with
  | nil => intro c q _; rfl
  | cons i t ih =>
      intro c q hq
      simp only [List.map_cons, List.mem_cons, not_or] at hq
      simp only [List.foldl_cons]
      rw [ih _ q hq.2]
      exact ShapeContainer.update_findR_ne _ _ _ _ hq.1

theorem initFold_seeds :
    ∀ (inits : List InitializerT) (c : ShapeContainer),
      (inits.map InitializerT.name).Nodup →
      ∀ init ∈ inits, (inits.foldl seedInitStep c).findR init.name =
        some ⟨init.name, some (init.shape.map Dim.val), some init.dtype,
          false⟩ := by
  intro inits
  induction inits with
  | nil => intro c _ init hmem; cases hmem
  | cons i t ih =>
      intro c hnd init hmem
      simp only [List.map_cons, List.nodup_cons] at hnd
      simp only [List.foldl_cons]
      rcases List.mem_cons.mp hmem with hmem | hmem
      · subst hmem
        rw [initFold_notmem t _ init.name hnd.1]
        exact ShapeContainer.update_findR_self _ _ _
      · exact ih _ hnd.2 init hmem

theorem inputFold_preserves :
    ∀ (inputs : List ValueInfoT) (c c' : ShapeContainer),
      inputs.foldlM seedInputStep c = .ok c' →
      ∀ q, (c.findR q).isSome → c'.findR q = c.findR q := by
  intro inputs
  induction inputs with
  | nil =>
      intro c c' h q _
      injection h with h
      rw [h]
  | cons obj t ih =>
      intro c c' h q hq
      rw [List.foldlM_cons] at h
      unfold seedInputStep at h
      by_cases hc : c.containsName obj.name
      · rw [if_pos hc] at h
        cases h
      · rw [if_neg hc] at h
        simp only [Bind.bind, Except.bind, pure, Except.pure] at h
        have hqobj : q ≠ obj.name := by
          intro he
          rw [he] at hq
          unfold ShapeContainer.containsName at hc
          exact hc hq
        have hpre :
            (((OnnxShapeInference.getShape obj c).2.update obj.name
              ⟨obj.name, some (OnnxShapeInference.getShape obj c).1.1,
               (OnnxShapeInference.getShape obj c).1.2.1,
               (OnnxShapeInference.getShape obj c).1.2.2⟩).1).findR q =
              c.findR q := by
          rw [ShapeContainer.update_findR_ne _ _ _ _ hqobj]
          exact getShapeDims_findR obj.name obj.dims 0 c q
        have hq1 := hq
        rw [← hpre] at hq1
        rw [ih _ c' h q hq1, hpre]

theorem inputFold_seeds :
    ∀ (inputs : List ValueInfoT) (c c' : ShapeContainer),
      inputs.foldlM seedInputStep c = .ok c' →
      ∀ obj ∈ inputs, ∃ sh,
        c'.findR obj.name = some ⟨obj.name, some sh,
          TENSOR_TYPE_TO_NP_TYPE obj.elem_type, false⟩ ∧
        List.Forall₂ dimMatches obj.dims sh := by
  intro inputs
  induction inputs with
  | nil => intro c c' _ obj hmem; cases hmem
  | cons o t ih =>
      intro c c' h obj hmem
      rw [List.foldlM_cons] at h
      unfold seedInputStep at h
      by_cases hc : c.containsName o.name
      · rw [if_pos hc] at h
        cases h
      · rw [if_neg hc] at h
        simp only [Bind.bind, Except.bind, pure, Except.pure] at h
        rcases List.mem_cons.mp hmem with hmem | hmem
        · subst hmem
          refine ⟨(OnnxShapeInference.getShape obj c).1.1, ?_,
            getShapeDims_matches obj.name obj.dims 0 c⟩
          have hself := ShapeContainer.update_findR_self
            ((OnnxShapeInference.getShape obj c).2) obj.name
            ⟨obj.name, some (OnnxShapeInference.getShape obj c).1.1,
             (OnnxShapeInference.getShape obj c).1.2.1,
             (OnnxShapeInference.getShape obj c).1.2.2⟩
          have hsome : ((((OnnxShapeInference.getShape obj c).2.update
              obj.name
              ⟨obj.name, some (OnnxShapeInference.getShape obj c).1.1,
               (OnnxShapeInference.getShape obj c).1.2.1,
               (OnnxShapeInference.getShape obj c).1.2.2⟩).1).findR
              obj.name).isSome := by
            rw [hself]
            rfl
          rw [inputFold_preserves t _ c' h obj.name hsome, hself]
          rfl
        · exact ih _ c' h obj hmem

theorem outputFold_preserves :
    ∀ (outputs : List ValueInfoT) (c c' : ShapeContainer),
      outputs.foldlM seedOutputStep c = .ok c' →
      ∀ q, (c.findR q).isSome → c'.findR q = c.findR q := by
  intro outputs
  induction outputs with
  | nil =>
      intro c c' h q _
      injection h with h
      rw [h]
  | cons obj t ih =>
      intro c c' h q hq
      rw [List.foldlM_cons] at h
      unfold seedOutputStep at h
      by_cases hc : c.containsName obj.name
      · rw [if_pos hc] at h
        cases h
      · rw [if_neg hc] at h
        have hqobj : q ≠ obj.name := by
          intro he
          rw [he] at hq
          unfold ShapeContainer.containsName at hc
          exact hc hq
        cases hdt : (OnnxShapeInference.getShape obj c).1.2.1 with
        | none =>
            rw [hdt] at h
            simp only [Bind.bind, Except.bind, pure, Except.pure] at h
            have hpre : ((OnnxShapeInference.getShape obj c).2).findR q =
                c.findR q := getShapeDims_findR obj.name obj.dims 0 c q
            have hq1 := hq
            rw [← hpre] at hq1
            rw [ih _ c' h q hq1, hpre]
        | some dt =>
            rw [hdt] at h
            simp only [Bind.bind, Except.bind, pure, Except.pure] at h
            have hpre :
                (((OnnxShapeInference.getShape obj c).2.update obj.name
                  ⟨obj.name, some (OnnxShapeInference.getShape obj c).1.1,
                   some dt,
                   (OnnxShapeInference.getShape obj c).1.2.2⟩).1).findR q =
                  c.findR q := by
              rw [ShapeContainer.update_findR_ne _ _ _ _ hqobj]
              exact getShapeDims_findR obj.name obj.dims 0 c q
            have hq1 := hq
            rw [← hpre] at hq1
            rw [ih _ c' h q hq1, hpre]

theorem outputFold_seeds :
    ∀ (outputs : List ValueInfoT) (c c' : ShapeContainer),
      outputs.foldlM seedOutputStep c = .ok c' →
      ∀ obj ∈ outputs, (TENSOR_TYPE_TO_NP_TYPE obj.elem_type).isSome →
        (c'.findR obj.name).isSome := by
  intro outputs
  induction outputs with
  | nil => intro c c' _ obj hmem; cases hmem
  | cons o t ih =>
      intro c c' h obj hmem hdtype
      rw [List.foldlM_cons] at h
      unfold seedOutputStep at h
      by_cases hc : c.containsName o.name
      · rw [if_pos hc] at h
        cases h
      · rw [if_neg hc] at h
        rcases List.mem_cons.mp hmem with hmem | hmem
        · subst hmem
          rcases hdt : (OnnxShapeInference.getShape obj c).1.2.1 with _ | dt
          · have hco : TENSOR_TYPE_TO_NP_TYPE obj.elem_type = none := hdt
            rw [hco] at hdtype
            simp at hdtype
          · rw [hdt] at h
            simp only [Bind.bind, Except.bind, pure, Except.pure] at h
            have hself := ShapeContainer.update_findR_self
              ((OnnxShapeInference.getShape obj c).2) obj.name
              ⟨obj.name, some (OnnxShapeInference.getShape obj c).1.1,
               some dt, (OnnxShapeInference.getShape obj c).1.2.2⟩
            have hsome : ((((OnnxShapeInference.getShape obj c).2.update
                obj.name
                ⟨obj.name, some (OnnxShapeInference.getShape obj c).1.1,
                 some dt,
                 (OnnxShapeInference.getShape obj c).1.2.2⟩).1).findR
                obj.name).isSome := by
              rw [hself]
              rfl
            rw [outputFold_preserves t _ c' h obj.name hsome]
            rw [hself]
            rfl
        · cases hdt : (OnnxShapeInference.getShape o c).1.2.1 with
          | none =>
              rw [hdt] at h
              simp only [Bind.bind, Except.bind, pure, Except.pure] at h
              exact ih _ c' h obj hmem hdtype
          | some dt =>
              rw [hdt] at h
              simp only [Bind.bind, Except.bind, pure, Except.pure] at h
              exact ih _ c' h obj hmem hdtype

end Mlprodict

namespace Mlprodict

theorem scanOnce_writes : ∀ {l : List NodeT} {c c' : ShapeContainer}
    {b : Bool} {q : String}, scanOnce c l = (c', b) →
    (∀ n ∈ l, q ∉ n.output) → c'.findR q = c.findR q := by
  intro l
  induction l with
  | nil =>
      intro c c' b q h _
      injection h with h1 _
      rw [h1]
  | cons n rest ih =>
      intro c c' b q h hq
      simp only [scanOnce] at h
      have hw : (shape_dispatch c n).1.findR q = c.findR q :=
        shape_dispatch_writes (hq n (List.mem_cons_self n rest))
      by_cases hd : (shape_dispatch c n).2 = true
      · rw [if_pos hd] at h
        injection h with h1 _
        rw [← h1, hw]
      · rw [if_neg hd] at h
        rw [ih h (fun a ha => hq a (List.mem_cons_of_mem n ha)), hw]

theorem propagateLoop_writes : ∀ {fuel : Nat} {l : List NodeT}
    {c c' : ShapeContainer} {b : Bool} {q : String},
    propagateLoop fuel c l = (c', b) →
    (∀ n ∈ l, q ∉ n.output) → c'.findR q = c.findR q := by
  intro fuel
  induction fuel with
  | zero =>
      intro l c c' b q h _
      injection h with h1 _
      rw [h1]
  | succ f ih =>
      intro l c c' b q h hq
      simp only [propagateLoop] at h
      rcases hs : scanOnce c l with ⟨c1, ch⟩
      rw [hs] at h
      cases ch
      · simp only [if_false, Bool.false_eq_true] at h
        injection h with h1 _
        rw [← h1]
        exact scanOnce_writes hs hq
      · simp only [if_true] at h
        rw [ih h hq, scanOnce_writes hs hq]

theorem scanOnce_isSome : ∀ {l : List NodeT} {c c' : ShapeContainer}
    {b : Bool} {q : String}, scanOnce c l = (c', b) →
    (c.findR q).isSome → (c'.findR q).isSome := by
  intro l
  induction l with
  | nil =>
      intro c c' b q h hq
      injection h with h1 _
      rw [h1] at hq
      exact hq
  | cons n rest ih =>
      intro c c' b q h hq
      simp only [scanOnce] at h
      have hw : ((shape_dispatch c n).1.findR q).isSome :=
        shape_dispatch_isSome hq
      by_cases hd : (shape_dispatch c n).2 = true
      · rw [if_pos hd] at h
        injection h with h1 _
        rw [← h1]
        exact hw
      · rw [if_neg hd] at h
        exact ih h hw

theorem propagateLoop_isSome : ∀ {fuel : Nat} {l : List NodeT}
    {c c' : ShapeContainer} {b : Bool} {q : String},
    propagateLoop fuel c l = (c', b) →
    (c.findR q).isSome → (c'.findR q).isSome := by
  intro fuel
  induction fuel with
  | zero =>
      intro l c c' b q h hq
      injection h with h1 _
      rw [h1] at hq
      exact hq
  | succ f ih =>
      intro l c c' b q h hq
      simp only [propagateLoop] at h
      rcases hs : scanOnce c l with ⟨c1, ch⟩
      rw [hs] at h
      cases ch
      · simp only [if_false, Bool.false_eq_true] at h
        injection h with h1 _
        rw [← h1]
        exact scanOnce_isSome hs hq
      · simp only [if_true] at h
        exact ih h (scanOnce_isSome hs hq)

theorem seedEmpty_spec (m : ModelProto) (c0 : ShapeContainer)
    (h : OnnxShapeInference.seedEmpty m = .ok c0)
    (hnd : (m.initializer.map InitializerT.name).Nodup) :
    (∀ init ∈ m.initializer, c0.findR init.name =
      some ⟨init.name, some (init.shape.map Dim.val), some init.dtype,
        false⟩)
    ∧ (∀ inp ∈ m.input, ∃ sh, c0.findR inp.name =
        some ⟨inp.name, some sh, TENSOR_TYPE_TO_NP_TYPE inp.elem_type,
          false⟩ ∧ List.Forall₂ dimMatches inp.dims sh)
    ∧ (∀ outp ∈ m.output, (TENSOR_TYPE_TO_NP_TYPE outp.elem_type).isSome →
        (c0.findR outp.name).isSome) := by
  unfold OnnxShapeInference.seedEmpty at h
  rcases hin : m.input.foldlM seedInputStep
      (m.initializer.foldl seedInitStep ShapeContainer.empty) with e | c1
  · rw [hin] at h
    simp only [Bind.bind, Except.bind] at h
    cases h
  rw [hin] at h
  simp only [Bind.bind, Except.bind] at h
  rcases hout : m.output.foldlM seedOutputStep c1 with e | c2
  · rw [hout] at h
    cases h
  rw [hout] at h
  simp only [pure, Except.pure] at h
  injection h with h
  subst h
  refine ⟨?_, ?_, ?_⟩
  · intro init hmem
    have hv := initFold_seeds m.initializer ShapeContainer.empty hnd init hmem
    have hs1 : c1.findR init.name =
        (m.initializer.foldl seedInitStep ShapeContainer.empty).findR
          init.name :=
      inputFold_preserves m.input _ c1 hin init.name (by rw [hv]; rfl)
    have hs2 : c2.findR init.name = c1.findR init.name :=
      outputFold_preserves m.output c1 c2 hout init.name
        (by rw [hs1, hv]; rfl)
    rw [hs2, hs1, hv]
  · intro inp hmem
    obtain ⟨sh, hv, hm⟩ := inputFold_seeds m.input _ c1 hin inp hmem
    refine ⟨sh, ?_, hm⟩
    have hs2 : c2.findR inp.name = c1.findR inp.name :=
      outputFold_preserves m.output c1 c2 hout inp.name (by rw [hv]; rfl)
    rw [hs2, hv]
  · intro outp hmem hdt
    exact outputFold_seeds m.output c1 c2 hout outp hmem hdt

end Mlprodict

namespace Mlprodict

/-- C4 (amended): after a successful `OnnxShapeInference` construction
on a single-assignment model, the known-shapes container holds the
ShapeResult of every initializer (concrete shape and dtype of its stored
data) and of every declared graph input (declared dtype, declared dims
with symbolic names where sizes are unspecified), and an entry for every
declared graph output whose declared element type is known; outputs
declared without a known element type are skipped by the init pass. -/
theorem C4_init_seeds_declared :
    ∀ (m : ModelProto) (c : ShapeContainer),
      OnnxShapeInference.runEmpty m = .ok c →
      (m.initializer.map InitializerT.name).Nodup →
      (∀ n ∈ m.node, ∀ s ∈ n.output,
        s ∉ m.initializer.map InitializerT.name ∧
        s ∉ m.input.map ValueInfoT.name) →
      (∀ init ∈ m.initializer, c.findR init.name =
        some ⟨init.name, some (init.shape.map Dim.val), some init.dtype,
          false⟩)
      ∧ (∀ inp ∈ m.input, ∃ sh, c.findR inp.name =
          some ⟨inp.name, some sh, TENSOR_TYPE_TO_NP_TYPE inp.elem_type,
            false⟩ ∧ List.Forall₂ dimMatches inp.dims sh)
      ∧ (∀ outp ∈ m.output,
          (TENSOR_TYPE_TO_NP_TYPE outp.elem_type).isSome →
          (c.findR outp.name).isSome) := by
  intro m c h hnd hdisj
  unfold OnnxShapeInference.runEmpty at h
  rcases hseed : OnnxShapeInference.seedEmpty m with e | c0
  · rw [hseed] at h
    simp only [Bind.bind, Except.bind] at h
    cases h
  rw [hseed] at h
  simp only [Bind.bind, Except.bind] at h
  rcases hp : propagateLoop (m.node.length + 1) c0 m.node with ⟨cl, b⟩
  rw [hp] at h
  cases b
  · simp only [Bool.false_eq_true, if_false, pure, Except.pure] at h
    injection h with h
    subst h
    obtain ⟨hini, hinp, hout⟩ := seedEmpty_spec m c0 hseed hnd
    refine ⟨?_, ?_, ?_⟩
    · intro init hmem
      have hno : ∀ n ∈ m.node, init.name ∉ n.output := by
        intro n hn hcon
        exact (hdisj n hn init.name hcon).1
          (List.mem_map_of_mem InitializerT.name hmem)
      rw [propagateLoop_writes hp hno]
      exact hini init hmem
    · intro inp hmem
      obtain ⟨sh, hv, hm⟩ := hinp inp hmem
      have hno : ∀ n ∈ m.node, inp.name ∉ n.output := by
        intro n hn hcon
        exact (hdisj n hn inp.name hcon).2
          (List.mem_map_of_mem ValueInfoT.name hmem)
      exact ⟨sh, by rw [propagateLoop_writes hp hno]; exact hv, hm⟩
    · intro outp hmem hdt
      exact propagateLoop_isSome hp (hout outp hmem hdt)
  · simp only [if_true] at h
    cases h

/-- Witness for C4 at the concrete model `c2Model` (whose fixed point is
its seeded container). -/
theorem C4_init_seeds_declared_witness :
    (∀ init ∈ c2Model.initializer, c2Seeded.findR init.name =
      some ⟨init.name, some (init.shape.map Dim.val), some init.dtype,
        false⟩)
    ∧ (∀ inp ∈ c2Model.input, ∃ sh, c2Seeded.findR inp.name =
        some ⟨inp.name, some sh, TENSOR_TYPE_TO_NP_TYPE inp.elem_type,
          false⟩ ∧ List.Forall₂ dimMatches inp.dims sh)
    ∧ (∀ outp ∈ c2Model.output,
        (TENSOR_TYPE_TO_NP_TYPE outp.elem_type).isSome →
        (c2Seeded.findR outp.name).isSome) :=
  C4_init_seeds_declared c2Model c2Seeded rfl (by decide) (by decide)

/-- The C4 counterexample model: the output `Y` is declared with no
element type (`elem_type = 0`). -/
def c4Model : ModelProto :=
  { initializer := [],
    input := [⟨"X", 1, [⟨2, ""⟩]⟩],
    output := [⟨"Y", 0, []⟩],
    node := [] }

/-- C4 counterexample: on `c4Model` the construction succeeds but the
returned container has no ShapeResult for the declared graph output `Y`
(the init pass skips outputs whose declared type is unknown), refuting
the claim that every declared graph output is seeded. -/
theorem C4_counterexample :
    ∃ c, OnnxShapeInference.runEmpty c4Model = .ok c ∧
      c.findR "Y" = none ∧
      "Y" ∈ c4Model.output.map ValueInfoT.name :=
  ⟨⟨[("X", ⟨"X", some [Dim.val 2], some .float32, false⟩)], 0⟩,
   rfl, rfl, by decide⟩

end Mlprodict

namespace Mlprodict

/-! ## OnnxShapeInference.run and the session state

Object identity matters for the frame claims, so containers live in an
explicit store (a list indexed by address): `copy(deep=True)` allocates
a fresh address, and the session's own address is never written by
`run`.
-/

/-- A value fed to `OnnxShapeInference.run`: its shape, dtype, and
whether it is a numpy ndarray (anything else counts as sparse in line
142). -/
structure FeedValue where
  shape : List Nat
  dtype : NpDtype
  isNdarray : Bool
  deriving DecidableEq, Repr

/-- The input-recording loop of `OnnxShapeInference.run` (lines
139-144): `cont = cont or known_shapes.update(...)`.  The Python `or`
short-circuits: once `cont` is true, `update` is no longer called for
the remaining inputs. -/
def runRecordInputs (known : ShapeContainer)
    (inputs : List (String × FeedValue)) : ShapeContainer × Bool :=
  inputs.foldl
    (fun acc p =>
      if acc.2 then acc
      else
        acc.1.update p.1
          ⟨p.1, some (p.2.shape.map Dim.val), some p.2.dtype,
           !p.2.isNdarray⟩)
    (known, false)

/-- The body of `OnnxShapeInference.run` (lines 127-152), acting on the
deep copy of the stored container: with no inputs, resolve and return;
otherwise record the inputs, re-propagate while anything changed,
resolve.  The second component reports a loop still running past the
fuel bound. -/
def OnnxShapeInference.runBody (m : ModelProto) (known : ShapeContainer)
    (inputs : Option (List (String × FeedValue))) :
    ShapeContainer × Bool :=
  match inputs with
  | none => (known.resolve, false)
  | some feed =>
      let p := runRecordInputs known feed
      if p.2 then
        let q := propagateLoop (m.node.length + 1) p.1 m.node
        (q.1.resolve, q.2)
      else (p.1.resolve, false)

/-- A store of ShapeContainer objects; the address is the list index. -/
abbrev ContainerStore := List ShapeContainer

/-- `OnnxShapeInference.__init__` (lines 46-51): run the empty pass and
store the result as `self.known_shapes_`, a fresh object in the store. -/
def OnnxShapeInference.construct (m : ModelProto) (st : ContainerStore) :
    Except String (ContainerStore × Nat) := do
  let c ← OnnxShapeInference.runEmpty m
  pure (st ++ [c], st.length)

/-- `OnnxShapeInference.run` (lines 127-152): deep-copy
`self.known_shapes_` to a fresh store address and work on the copy; the
address `selfAddr` of the session's stored container is never written. -/
def OnnxShapeInference.runSession (m : ModelProto) (st : ContainerStore)
    (selfAddr : Nat) (inputs : Option (List (String × FeedValue))) :
    Except String (ContainerStore × Nat) :=
  let copy := st.getD selfAddr ShapeContainer.empty
  let r := OnnxShapeInference.runBody m copy inputs
  if r.2 then throw "propagation loop still running after the fuel bound"
  else pure (st ++ [r.1], st.length)

end Mlprodict

namespace Mlprodict

/-- C9: `OnnxShapeInference.run` never mutates the session's stored
shape state: it deep-copies `self.known_shapes_` before applying any
input-specific update, so every store address existing before the call
(in particular the session's own) holds the same container afterwards,
and the returned container is computed from the copy. -/
theorem C9_run_preserves_session_state :
    ∀ (m : ModelProto) (st : ContainerStore) (a : Nat)
      (inputs : Option (List (String × FeedValue)))
      (st' : ContainerStore) (addr' : Nat),
      OnnxShapeInference.runSession m st a inputs = .ok (st', addr') →
      (∀ i, i < st.length → st'.get? i = st.get? i)
      ∧ st'.get? addr' =
          some (OnnxShapeInference.runBody m
            (st.getD a ShapeContainer.empty) inputs).1 := by
  intro m st a inputs st' addr' h
  unfold OnnxShapeInference.runSession at h
  by_cases hr : (OnnxShapeInference.runBody m
      (st.getD a ShapeContainer.empty) inputs).2 = true
  · rw [if_pos hr] at h
    cases h
  · rw [if_neg hr] at h
    simp only [pure, Except.pure] at h
    injection h with h
    injection h with h1 h2
    subst h1
    subst h2
    constructor
    · intro i hi
      exact List.get?_append hi
    · exact List.get?_concat_length st _

/-- Witness for C9: a run with no inputs on the session built from
`c2Model`. -/
theorem C9_run_preserves_session_state_witness :
    (∀ i, i < [c2Seeded].length →
      [c2Seeded, c2Seeded].get? i = [c2Seeded].get? i)
    ∧ [c2Seeded, c2Seeded].get? 1 =
        some (OnnxShapeInference.runBody c2Model
          ([c2Seeded].getD 0 ShapeContainer.empty) none).1 :=
  C9_run_preserves_session_state c2Model [c2Seeded] 0 none
    [c2Seeded, c2Seeded] 1 rfl

end Mlprodict

namespace Mlprodict

/-- The C3 model: two inputs, both with a symbolic dim. -/
def c3Model : ModelProto :=
  { initializer := [],
    input := [⟨"X1", 1, [⟨0, "a"⟩]⟩, ⟨"X2", 1, [⟨0, "b"⟩]⟩],
    output := [],
    node := [] }

/-- The container `OnnxShapeInference.__init__` stores for `c3Model`. -/
def c3Cont : ShapeContainer :=
  ⟨[("X1", ⟨"X1", some [Dim.sym "a"], some .float32, false⟩),
    ("X2", ⟨"X2", some [Dim.sym "b"], some .float32, false⟩)], 0⟩

/-- Concrete arrays fed to `run`: X1 of shape (3,), X2 of shape (5,). -/
def c3Feed : List (String × FeedValue) :=
  [("X1", ⟨[3], .float32, true⟩), ("X2", ⟨[5], .float32, true⟩)]

/-- C3 failing run: feeding both inputs records X1's concrete shape but
never records X2's.  The first `known_shapes.update` returns `True`, so
the short-circuiting `cont = cont or known_shapes.update(...)` skips the
`update` call for every later input: X2 keeps its symbolic dim `b`
instead of the concrete 5 the claim requires. -/
theorem C3_run_skips_second_supplied_input :
    OnnxShapeInference.construct c3Model [] = .ok ([c3Cont], 0)
    ∧ OnnxShapeInference.runSession c3Model [c3Cont] 0 (some c3Feed) =
        .ok ([c3Cont,
          ⟨[("X1", ⟨"X1", some [Dim.val 3], some .float32, false⟩),
            ("X2", ⟨"X2", some [Dim.sym "b"], some .float32, false⟩)],
           0⟩], 1)
    ∧ (⟨[("X1", ⟨"X1", some [Dim.val 3], some .float32, false⟩),
         ("X2", ⟨"X2", some [Dim.sym "b"], some .float32, false⟩)],
        0⟩ : ShapeContainer).findR "X2" ≠
        some ⟨"X2", some [Dim.val 5], some .float32, false⟩ := by
  refine ⟨rfl, rfl, ?_⟩
  intro h
  simp [ShapeContainer.findR, findRList] at h

end Mlprodict

namespace Mlprodict

/-! ## knn.py: onnx_nearest_neighbors_indices

The skl2onnx operator-graph builders (`OnnxSub`, `OnnxScan`, ...) build
expression trees; the tree is embedded as an inductive with the operator
name and children (output names, tensor types and opset plumbing of
`to_onnx` are not carried — only the control flow and the raised
exceptions matter to the claims).  Python exceptions are the `.error`
messages.
-/

inductive OnnxExpr where
  | input (name : String)
  | constQ (vals : List ℚ)
  | constInt (vals : List Int)
  | op (name : String) (args : List OnnxExpr)
  | outIdx (e : OnnxExpr) (idx : Nat)
  deriving Repr

/-- `_onnx_cdist_sqeuclidean` (knn.py lines 76-101): the Scan body with
`Sub` / `ReduceSumSquare`, wrapped in `Scan` and `Transpose`. -/
def onnx_cdist_sqeuclidean (X Y : OnnxExpr) : OnnxExpr :=
  let diff := OnnxExpr.op "Sub" [.input "next_in", .input "next"]
  let id_next := OnnxExpr.op "Identity" [.input "next_in"]
  let norm := OnnxExpr.op "ReduceSumSquare" [diff]
  let flat := OnnxExpr.op "Identity" [norm]
  let scan_body := OnnxExpr.op "ScanBody" [id_next, flat]
  let node := OnnxExpr.op "Scan" [X, Y, scan_body]
  OnnxExpr.op "Transpose" [.outIdx node 1]

/-- `_onnx_cdist_minkowski` (lines 104-131). -/
def onnx_cdist_minkowski (X Y : OnnxExpr) (p : ℚ) : OnnxExpr :=
  let diff := OnnxExpr.op "Sub" [.input "next_in", .input "next"]
  let id_next := OnnxExpr.op "Identity" [.input "next_in"]
  let diff_pow := OnnxExpr.op "Pow" [.op "Abs" [diff], .constQ [p]]
  let norm := OnnxExpr.op "ReduceSum" [diff_pow]
  let flat := OnnxExpr.op "Identity" [norm]
  let scan_body := OnnxExpr.op "ScanBody" [id_next, flat]
  let node := OnnxExpr.op "Scan" [X, Y, scan_body]
  OnnxExpr.op "Transpose" [.outIdx node 1]

/-- `_onnx_cdist_manhattan` (lines 134-160). -/
def onnx_cdist_manhattan (X Y : OnnxExpr) : OnnxExpr :=
  let diff := OnnxExpr.op "Sub" [.input "next_in", .input "next"]
  let id_next := OnnxExpr.op "Identity" [.input "next_in"]
  let diff_pow := OnnxExpr.op "Abs" [diff]
  let norm := OnnxExpr.op "ReduceSum" [diff_pow]
  let flat := OnnxExpr.op "Identity" [norm]
  let scan_body := OnnxExpr.op "ScanBody" [id_next, flat]
  let node := OnnxExpr.op "Scan" [X, Y, scan_body]
  OnnxExpr.op "Transpose" [.outIdx node 1]

/-- `onnx_cdist` (lines 43-73): metric dispatch.  `p` models the only
consumed keyword argument; `kwargs.pop('p')` with no `p` raises
`KeyError`.  An unsupported metric raises `NotImplementedError`. -/
def onnx_cdist (X Y : OnnxExpr) (metric : String) (p : Option ℚ) :
    Except String OnnxExpr :=
  if metric = "sqeuclidean" then .ok (onnx_cdist_sqeuclidean X Y)
  else if metric = "euclidean" then
    .ok (.op "Sqrt" [onnx_cdist_sqeuclidean X Y])
  else if metric = "minkowski" then
    match p with
    | none => .error "KeyError: p"
    | some pv =>
        .ok (.op "Pow" [onnx_cdist_minkowski X Y pv, .constQ [1 / pv]])
  else if metric = "manhattan" then .ok (onnx_cdist_manhattan X Y)
  else .error "NotImplementedError: metric is not implemented."

/-- The top-k selection logic after line 189 (lines 190-210):
version-dispatched `TopK` over the negated distances, returning the
index output (and the distances when requested). -/
def nnTopK (dist : OnnxExpr) (k : Nat) (op_version : Int)
    (keep_distances : Bool) : List OnnxExpr :=
  let neg_dist := OnnxExpr.op "Mul" [dist, .constQ [-1]]
  let node :=
    if op_version < 10 then OnnxExpr.op "TopK_1" [neg_dist]
    else if op_version < 11 then
      OnnxExpr.op "TopK_10" [neg_dist, .constInt [(k : Int)]]
    else OnnxExpr.op "TopK_11" [neg_dist, .constInt [(k : Int)]]
  if keep_distances then
    [.outIdx node 1, .op "Mul" [.outIdx node 0, .constQ [-1]]]
  else [.outIdx node 1]

/-- `onnx_nearest_neighbors_indices` (lines 163-210): compute the
distance graph according to `optim`, then — line 189 — evaluate the bare
name `stop`, which raises `NameError` on every execution that reaches
it; the top-k logic below it is unreachable. -/
def onnx_nearest_neighbors_indices (X Y : OnnxExpr) (k : Nat)
    (metric : String) (op_version : Int) (keep_distances : Bool)
    (optim : Option String) (p : Option ℚ) :
    Except String (List OnnxExpr) := do
  let dist ←
    if optim = some "cdist" then
      .ok (OnnxExpr.op "CDist" [X, Y])
    else if optim = none then
      onnx_cdist X Y metric p
    else
      .error "ValueError: Unknown optimisation."
  let _ ← (.error "NameError: name 'stop' is not defined" :
    Except String Unit)
  pure (nnTopK dist k op_version keep_distances)

end Mlprodict

namespace Mlprodict

/-- C5: the bare `stop` statement at knn.py line 189 is not dead code:
it is reached on every call whose distance computation succeeds —
in particular the plain euclidean call — aborting the function with
`NameError` before the top-k selection, and no call of
`onnx_nearest_neighbors_indices` ever returns successfully. -/
theorem C5_stop_aborts_every_call :
    onnx_nearest_neighbors_indices (.input "X") (.input "Y") 1 "euclidean"
        11 false none none =
      .error "NameError: name 'stop' is not defined"
    ∧ ∀ (X Y : OnnxExpr) (k : Nat) (metric : String) (opv : Int)
        (kd : Bool) (optim : Option String) (p : Option ℚ),
        (onnx_nearest_neighbors_indices X Y k metric opv kd optim
          p).isOk = false := by
  constructor
  · rfl
  · intro X Y k metric opv kd optim p
    unfold onnx_nearest_neighbors_indices
    by_cases h1 : optim = some "cdist"
    · rw [if_pos h1]
      rfl
    · rw [if_neg h1]
      by_cases h2 : optim = none
      · rw [if_pos h2]
        rcases hc : onnx_cdist X Y metric p with e | d
        · simp [Bind.bind, Except.bind, hc, Except.isOk, Except.toBool]
        · simp [Bind.bind, Except.bind, hc, Except.isOk, Except.toBool]
      · rw [if_neg h2]
        rfl

end Mlprodict

namespace Mlprodict

/-! ## skl2onnx_helper.py: add_onnx_graph

Names are either original graph names or scope-generated ones; the
skl2onnx `Scope` (an external collaborator) is modelled from the spec as
a fresh-name allocator driven by a monotone counter, so that
`get_unique_variable_name` / `get_unique_operator_name` never return a
name produced before. -/

inductive GName where
  | orig (s : String)
  | gen (k : Nat)
  deriving DecidableEq, Repr

/-- Modelled from the spec: skl2onnx Scope — a collision-free name
allocator ("rename every internal produced name using a collision-free
scheme"). -/
structure Scope where
  counter : Nat
  deriving DecidableEq, Repr

def Scope.getUnique (s : Scope) (_seed : GName) : GName × Scope :=
  (GName.gen s.counter, ⟨s.counter + 1⟩)

structure GNode where
  name : GName
  op_type : String
  input : List GName
  output : List GName
  deriving DecidableEq, Repr

structure GGraph where
  node : List GNode
  input : List GName
  output : List GName
  initializer : List GName
  deriving DecidableEq, Repr

/-- The skl2onnx ModelComponentContainer as `add_onnx_graph` touches it:
its node list and its initializer (tensor name) list. -/
structure SklContainer where
  nodes : List GNode
  initializers : List GName
  deriving DecidableEq, Repr

/-- Python dict assignment: replace in place or append. -/
def dictSet : List (GName × GName) → GName → GName → List (GName × GName)
  | [], k, v => [(k, v)]
  | p :: rest, k, v =>
      if p.1 = k then (k, v) :: rest else p :: dictSet rest k v

/-- Python dict lookup. -/
def dictGet : List (GName × GName) → GName → Option GName
  | [], _ => none
  | p :: rest, k => if p.1 = k then some p.2 else dictGet rest k

/-- Dict lookup that raises `KeyError` when the key is absent
(`name_mapping[o]` in the list comprehensions). -/
def lookupE (m : List (GName × GName)) (k : GName) : Except String GName :=
  match dictGet m k with
  | some v => .ok v
  | none => .error "KeyError: name_mapping"

/-- The Python list comprehension over a fallible body. -/
def mapME (f : α → Except String β) : List α → Except String (List β)
  | [] => .ok []
  | a :: t => do
      let b ← f a
      let bs ← mapME f t
      pure (b :: bs)

/-- Allocate a fresh name for every listed name, recording each in the
mapping (`name_mapping[o] = _clean_variable_name(o, scope)` et al.;
later assignments overwrite earlier ones as in a Python dict). -/
def allocAll (m : List (GName × GName)) (sc : Scope) (names : List GName) :
    List (GName × GName) × Scope :=
  names.foldl
    (fun acc o =>
      let q := acc.2.getUnique o
      (dictSet acc.1 o q.1, q.2))
    (m, sc)

/-- The per-node step of the mapping loop (skl2onnx_helper.py lines
45-53): a fresh node name via `_clean_initializer_name`, then fresh
names for every node input and every node output. -/
def bmStep (acc : List (GName × GName) × List (GName × GName) × Scope)
    (n : GNode) : List (GName × GName) × List (GName × GName) × Scope :=
  let q := acc.2.2.getUnique n.name
  let r1 := allocAll acc.1 q.2 n.input
  let r2 := allocAll r1.1 r1.2 n.output
  (r2.1, dictSet acc.2.1 n.name q.1, r2.2)

/-- The mapping phase of `add_onnx_graph` (lines 43-55): name_mapping
and node_mapping over all nodes, then the initializer names through
`_clean_operator_name`, overwriting the variable-pool entries. -/
def buildMapping (sc : Scope) (onx : GGraph) :
    List (GName × GName) × List (GName × GName) × Scope :=
  let a := onx.node.foldl bmStep ([], [], sc)
  let b := allocAll a.1 a.2.2 onx.initializer
  (b.1, a.2.1, b.2)

/-- Copy one graph node with every input and output renamed through
name_mapping and the node name through node_mapping (lines 72-80). -/
def spliceNode (M NM : List (GName × GName)) (n : GNode) :
    Except String GNode := do
  let ins ← mapME (lookupE M) n.input
  let outs ← mapME (lookupE M) n.output
  pure ⟨(dictGet NM n.name).getD n.name, n.op_type, ins, outs⟩

/-- The Identity bridge nodes (lines 62-70), each with a fresh operator
name. -/
def makeBridges (pairs : List (GName × GName)) (sc : Scope) :
    List GNode × Scope :=
  pairs.foldl
    (fun acc p =>
      let q := acc.2.getUnique (GName.orig "Identity")
      (acc.1 ++ [⟨q.1, "Identity", [p.1], [p.2]⟩], q.2))
    ([], sc)

/-- `add_onnx_graph` (skl2onnx_helper.py lines 30-93): build the rename
mapping, copy the sub-graph inputs/outputs under their new names, bridge
them to the call-site operator with Identity nodes, splice the renamed
nodes, and append the renamed initializers.  The opset-merging loop
(lines 90-92) touches no names and is not modelled. -/
def add_onnx_graph (sc : Scope) (opInputs opOutputs : List GName)
    (container : SklContainer) (onx : GGraph) :
    Except String (SklContainer × Scope) := do
  let gIns ← mapME (lookupE (buildMapping sc onx).1) onx.input
  let gOuts ← mapME (lookupE (buildMapping sc onx).1) onx.output
  let spliced ← mapME (spliceNode (buildMapping sc onx).1
    (buildMapping sc onx).2.1) onx.node
  let inits ← mapME (lookupE (buildMapping sc onx).1) onx.initializer
  pure (⟨container.nodes ++
      (makeBridges (opInputs.zip gIns) (buildMapping sc onx).2.2).1 ++
      (makeBridges (gOuts.zip opOutputs)
        (makeBridges (opInputs.zip gIns)
          (buildMapping sc onx).2.2).2).1 ++ spliced,
     container.initializers ++ inits⟩,
    (makeBridges (gOuts.zip opOutputs)
      (makeBridges (opInputs.zip gIns)
        (buildMapping sc onx).2.2).2).2)

/-- All names present in a container before the splice. -/
def containerNames (c : SklContainer) : List GName :=
  (c.nodes.bind fun n => n.name :: (n.input ++ n.output)) ++ c.initializers

end Mlprodict

namespace Mlprodict

theorem dictGet_mem : ∀ {m : List (GName × GName)} {k v : GName},
    dictGet m k = some v → (k, v) ∈ m := by
  intro m
  induction m with
  | nil => intro k v h; cases h
  | cons p rest ih =>
      intro k v h
      simp only [dictGet] at h
      by_cases hp : p.1 = k
      · rw [if_pos hp] at h
        injection h with h
        have hpv : p = (k, v) := Prod.ext hp h
        rw [← hpv]
        exact List.mem_cons_self p rest
      · rw [if_neg hp] at h
        exact List.mem_cons_of_mem p (ih h)

theorem dictSet_subset : ∀ {m : List (GName × GName)} {k v : GName}
    (p : GName × GName), p ∈ dictSet m k v → p = (k, v) ∨ p ∈ m := by
  intro m
  induction m with
  | nil =>
      intro k v p hp
      simp only [dictSet] at hp
      rcases List.mem_cons.mp hp with hp | hp
      · exact Or.inl hp
      · cases hp
  | cons q rest ih =>
      intro k v p hp
      simp only [dictSet] at hp
      by_cases hq : q.1 = k
      · rw [if_pos hq] at hp
        rcases List.mem_cons.mp hp with hp | hp
        · exact Or.inl hp
        · exact Or.inr (List.mem_cons_of_mem q hp)
      · rw [if_neg hq] at hp
        rcases List.mem_cons.mp hp with hp | hp
        · exact Or.inr (by rw [hp]; exact List.mem_cons_self q rest)
        · rcases ih p hp with hp | hp
          · exact Or.inl hp
          · exact Or.inr (List.mem_cons_of_mem q hp)

/-- All values of the mapping are generated names with index in
`[lo, hi)`. -/
def mapVals (m : List (GName × GName)) (lo hi : Nat) : Prop :=
  ∀ p ∈ m, ∃ j, p.2 = GName.gen j ∧ lo ≤ j ∧ j < hi

theorem mapVals_mono {m : List (GName × GName)} {lo h1 h2 : Nat}
    (h : mapVals m lo h1) (hle : h1 ≤ h2) : mapVals m lo h2 := by
  intro p hp
  obtain ⟨j, hj, hlo, hhi⟩ := h p hp
  exact ⟨j, hj, hlo, Nat.lt_of_lt_of_le hhi hle⟩

theorem allocAll_vals :
    ∀ (names : List GName) (m : List (GName × GName)) (sc : Scope)
      (lo : Nat), mapVals m lo sc.counter → lo ≤ sc.counter →
      mapVals (allocAll m sc names).1 lo (allocAll m sc names).2.counter
      ∧ sc.counter ≤ (allocAll m sc names).2.counter := by
  intro names
  induction names with
  | nil => intro m sc lo hm _; exact ⟨hm, Nat.le_refl _⟩
  | cons o t ih =>
      intro m sc lo hm hlo
      simp only [allocAll, List.foldl_cons]
      have hm1 : mapVals (dictSet m o (GName.gen sc.counter)) lo
          (sc.counter + 1) := by
        intro p hp
        rcases dictSet_subset p hp with hp | hp
        · exact ⟨sc.counter, by rw [hp], hlo, Nat.lt_succ_self _⟩
        · obtain ⟨j, hj, hl, hh⟩ := hm p hp
          exact ⟨j, hj, hl, Nat.lt_succ_of_lt hh⟩
      have := ih (dictSet m o (GName.gen sc.counter)) ⟨sc.counter + 1⟩ lo
        hm1 (Nat.le_succ_of_le hlo)
      exact ⟨this.1, Nat.le_trans (Nat.le_succ _) this.2⟩

theorem bmFold_vals :
    ∀ (nodes : List GNode) (m nm : List (GName × GName)) (sc : Scope)
      (lo : Nat), mapVals m lo sc.counter → lo ≤ sc.counter →
      mapVals (nodes.foldl bmStep (m, nm, sc)).1 lo
        (nodes.foldl bmStep (m, nm, sc)).2.2.counter
      ∧ sc.counter ≤ (nodes.foldl bmStep (m, nm, sc)).2.2.counter := by
  intro nodes
  induction nodes with
  | nil => intro m nm sc lo hm _; exact ⟨hm, Nat.le_refl _⟩
  | cons n t ih =>
      intro m nm sc lo hm hlo
      simp only [List.foldl_cons]
      unfold bmStep Scope.getUnique
      have h1 := allocAll_vals n.input m ⟨sc.counter + 1⟩ lo
        (mapVals_mono hm (Nat.le_succ _)) (Nat.le_succ_of_le hlo)
      have h2 := allocAll_vals n.output
        (allocAll m ⟨sc.counter + 1⟩ n.input).1
        (allocAll m ⟨sc.counter + 1⟩ n.input).2 lo h1.1
        (Nat.le_trans (Nat.le_succ_of_le hlo) h1.2)
      have h3 := ih (allocAll (allocAll m ⟨sc.counter + 1⟩ n.input).1
          (allocAll m ⟨sc.counter + 1⟩ n.input).2 n.output).1
        (dictSet nm n.name (GName.gen sc.counter))
        (allocAll (allocAll m ⟨sc.counter + 1⟩ n.input).1
          (allocAll m ⟨sc.counter + 1⟩ n.input).2 n.output).2 lo h2.1
        (Nat.le_trans (Nat.le_trans (Nat.le_succ_of_le hlo) h1.2) h2.2)
      refine ⟨h3.1, ?_⟩
      exact Nat.le_trans (Nat.le_succ _)
        (Nat.le_trans h1.2 (Nat.le_trans h2.2 h3.2))

theorem buildMapping_vals (sc : Scope) (onx : GGraph) :
    mapVals (buildMapping sc onx).1 sc.counter
      (buildMapping sc onx).2.2.counter := by
  unfold buildMapping
  have h1 := bmFold_vals onx.node [] [] sc sc.counter
    (fun p hp => absurd hp (List.not_mem_nil p)) (Nat.le_refl _)
  have h2 := allocAll_vals onx.initializer
    (onx.node.foldl bmStep ([], [], sc)).1
    (onx.node.foldl bmStep ([], [], sc)).2.2 sc.counter h1.1
    (Nat.le_trans (Nat.le_refl _) h1.2)
  exact h2.1

theorem lookupE_ok {m : List (GName × GName)} {k v : GName}
    (h : lookupE m k = .ok v) : dictGet m k = some v := by
  unfold lookupE at h
  cases hd : dictGet m k with
  | none => rw [hd] at h; cases h
  | some w =>
      rw [hd] at h
      injection h with h
      rw [h]

theorem mapME_ok_forall {α β : Type} :
    ∀ {l : List α} {f : α → Except String β} {out : List β},
      mapME f l = .ok out → ∀ b ∈ out, ∃ a ∈ l, f a = .ok b := by
  intro l
  induction l with
  | nil =>
      intro f out h b hb
      injection h with h
      rw [← h] at hb
      cases hb
  | cons a t ih =>
      intro f out h b hb
      simp only [mapME] at h
      cases hf : f a with
      | error e => rw [hf] at h; cases h
      | ok b0 =>
          rw [hf] at h
          cases hr : mapME f t with
          | error e =>
              rw [hr] at h
              cases h
          | ok bs =>
              rw [hr] at h
              simp only [Bind.bind, Except.bind, pure, Except.pure] at h
              injection h with h
              rw [← h] at hb
              rcases List.mem_cons.mp hb with hb | hb
              · exact ⟨a, List.mem_cons_self a t, by rw [hf, hb]⟩
              · obtain ⟨a', ha', hfa'⟩ := ih hr b hb
                exact ⟨a', List.mem_cons_of_mem a ha', hfa'⟩

end Mlprodict

namespace Mlprodict

/-- C6: on a successful `add_onnx_graph` splice, every internal node
input/output name and every initializer name of the sub-graph is mapped
(through the scope's collision-free allocator) to a freshly generated
name, the spliced node copies reference only those renamed names (the
same mapping gives the initializer tensors their names, keeping node
references and initializer names consistent), and no renamed name
collides with a name already present in the enclosing container. -/
theorem C6_add_onnx_graph_renames_collision_free :
    ∀ (sc : Scope) (opIn opOut : List GName) (cont : SklContainer)
      (onx : GGraph) (cont' : SklContainer) (sc' : Scope),
      add_onnx_graph sc opIn opOut cont onx = .ok (cont', sc') →
      (∀ g ∈ containerNames cont, ∀ j, g = GName.gen j →
        j < sc.counter) →
      ∃ gIns gOuts spliced inits,
        mapME (lookupE (buildMapping sc onx).1) onx.input = .ok gIns ∧
        mapME (lookupE (buildMapping sc onx).1) onx.output = .ok gOuts ∧
        mapME (spliceNode (buildMapping sc onx).1
          (buildMapping sc onx).2.1) onx.node = .ok spliced ∧
        mapME (lookupE (buildMapping sc onx).1) onx.initializer =
          .ok inits ∧
        cont'.nodes = cont.nodes ++
          (makeBridges (opIn.zip gIns) (buildMapping sc onx).2.2).1 ++
          (makeBridges (gOuts.zip opOut)
            (makeBridges (opIn.zip gIns)
              (buildMapping sc onx).2.2).2).1 ++ spliced ∧
        cont'.initializers = cont.initializers ++ inits ∧
        (∀ n ∈ spliced, ∀ g ∈ n.input ++ n.output,
          ∃ j, g = GName.gen j ∧ sc.counter ≤ j ∧
            g ∉ containerNames cont) ∧
        (∀ g ∈ inits, ∃ j, g = GName.gen j ∧ sc.counter ≤ j ∧
          g ∉ containerNames cont) := by
  intro sc opIn opOut cont onx cont' sc' h hcont
  have hval : ∀ (g o : GName),
      dictGet (buildMapping sc onx).1 o = some g →
      ∃ j, g = GName.gen j ∧ sc.counter ≤ j ∧
        g ∉ containerNames cont := by
    intro g o hg
    obtain ⟨j, hj, hlo, _⟩ :=
      buildMapping_vals sc onx (o, g) (dictGet_mem hg)
    refine ⟨j, hj, hlo, ?_⟩
    intro hmem
    have := hcont g hmem j hj
    omega
  unfold add_onnx_graph at h
  rcases h1 : mapME (lookupE (buildMapping sc onx).1) onx.input
    with e | gIns
  · rw [h1] at h
    cases h
  rw [h1] at h
  simp only [Bind.bind, Except.bind] at h
  rcases h2 : mapME (lookupE (buildMapping sc onx).1) onx.output
    with e | gOuts
  · rw [h2] at h
    cases h
  rw [h2] at h
  rcases h3 : mapME (spliceNode (buildMapping sc onx).1
      (buildMapping sc onx).2.1) onx.node with e | spliced
  · rw [h3] at h
    cases h
  rw [h3] at h
  rcases h4 : mapME (lookupE (buildMapping sc onx).1) onx.initializer
    with e | inits
  · rw [h4] at h
    cases h
  rw [h4] at h
  simp only [pure, Except.pure] at h
  injection h with h
  injection h with hcont' hsc'
  refine ⟨gIns, gOuts, spliced, inits, rfl, rfl, rfl, rfl, ?_, ?_, ?_, ?_⟩
  · rw [← hcont']
  · rw [← hcont']
  · intro n hn g hg
    obtain ⟨n0, _, hsn⟩ := mapME_ok_forall h3 n hn
    unfold spliceNode at hsn
    rcases hi : mapME (lookupE (buildMapping sc onx).1) n0.input
      with e | ins
    · rw [hi] at hsn
      cases hsn
    rw [hi] at hsn
    simp only [Bind.bind, Except.bind] at hsn
    rcases ho : mapME (lookupE (buildMapping sc onx).1) n0.output
      with e | outs
    · rw [ho] at hsn
      cases hsn
    rw [ho] at hsn
    simp only [pure, Except.pure] at hsn
    injection hsn with hsn
    rw [← hsn] at hg
    simp only [List.mem_append] at hg
    rcases hg with hg | hg
    · obtain ⟨o, _, hlo⟩ := mapME_ok_forall hi g hg
      exact hval g o (lookupE_ok hlo)
    · obtain ⟨o, _, hlo⟩ := mapME_ok_forall ho g hg
      exact hval g o (lookupE_ok hlo)
  · intro g hg
    obtain ⟨o, _, hlo⟩ := mapME_ok_forall h4 g hg
    exact hval g o (lookupE_ok hlo)

/-- The sub-graph spliced in the C6 witness: one `Add` node consuming
the graph input `X` and the initializer `A`, producing the graph output
`Z`. -/
def c6Graph : GGraph :=
  { node := [⟨.orig "n1", "Add", [.orig "X", .orig "A"], [.orig "Z"]⟩],
    input := [.orig "X"],
    output := [.orig "Z"],
    initializer := [.orig "A"] }

/-- Witness for C6: splicing `c6Graph` into an empty container with a
fresh scope. -/
theorem C6_add_onnx_graph_renames_collision_free_witness :
    ∃ gIns gOuts spliced inits,
      mapME (lookupE (buildMapping ⟨0⟩ c6Graph).1) c6Graph.input =
        .ok gIns ∧
      mapME (lookupE (buildMapping ⟨0⟩ c6Graph).1) c6Graph.output =
        .ok gOuts ∧
      mapME (spliceNode (buildMapping ⟨0⟩ c6Graph).1
        (buildMapping ⟨0⟩ c6Graph).2.1) c6Graph.node = .ok spliced ∧
      mapME (lookupE (buildMapping ⟨0⟩ c6Graph).1) c6Graph.initializer =
        .ok inits ∧
      (⟨[⟨.gen 5, "Identity", [.orig "p"], [.gen 1]⟩,
         ⟨.gen 6, "Identity", [.gen 3], [.orig "q"]⟩,
         ⟨.gen 0, "Add", [.gen 1, .gen 4], [.gen 3]⟩],
        [.gen 4]⟩ : SklContainer).nodes =
        (⟨[], []⟩ : SklContainer).nodes ++
        (makeBridges ([GName.orig "p"].zip gIns)
          (buildMapping ⟨0⟩ c6Graph).2.2).1 ++
        (makeBridges (gOuts.zip [GName.orig "q"])
          (makeBridges ([GName.orig "p"].zip gIns)
            (buildMapping ⟨0⟩ c6Graph).2.2).2).1 ++ spliced ∧
      (⟨[⟨.gen 5, "Identity", [.orig "p"], [.gen 1]⟩,
         ⟨.gen 6, "Identity", [.gen 3], [.orig "q"]⟩,
         ⟨.gen 0, "Add", [.gen 1, .gen 4], [.gen 3]⟩],
        [.gen 4]⟩ : SklContainer).initializers =
        (⟨[], []⟩ : SklContainer).initializers ++ inits ∧
      (∀ n ∈ spliced, ∀ g ∈ n.input ++ n.output,
        ∃ j, g = GName.gen j ∧ (⟨0⟩ : Scope).counter ≤ j ∧
          g ∉ containerNames ⟨[], []⟩) ∧
      (∀ g ∈ inits, ∃ j, g = GName.gen j ∧ (⟨0⟩ : Scope).counter ≤ j ∧
        g ∉ containerNames ⟨[], []⟩) :=
  C6_add_onnx_graph_renames_collision_free ⟨0⟩ [.orig "p"] [.orig "q"]
    ⟨[], []⟩ c6Graph
    ⟨[⟨.gen 5, "Identity", [.orig "p"], [.gen 1]⟩,
      ⟨.gen 6, "Identity", [.gen 3], [.orig "q"]⟩,
      ⟨.gen 0, "Add", [.gen 1, .gen 4], [.gen 3]⟩],
     [.gen 4]⟩ ⟨7⟩ rfl
    (fun g hg => absurd hg (by simp [containerNames]))

end Mlprodict
